import Mathlib

/-
Verification of the eve-frontier-tools data-extraction pipeline.

This file shallowly embeds the parts of the repository that the checked
claims are about:

  * `src/lib/utils.js`            — `StatsCollector`, `files.createSymlink`,
                                    `files.isValidSQLite`
  * `src/lib/processors/file-indexing.js`
                                  — the manifest-line regex, `processIndexFile`,
                                    `processStaticFile`, and the stellar
                                    cartography passes (`extractStellarLabels`,
                                    `buildStellarData`)
  * `src/lib/processors/blueprints.js` — `runBlueprintAnalysis`
  * `src/lib/processors/type-names.js` — `runTypeNameExtraction`

JavaScript objects used as maps are modelled as association lists,
JavaScript numbers as `Int`/`Nat` (all the touched quantities are integral),
strings as `String` or `List Char`, and the filesystem touched by the
symlink manager as a finite map from paths to entries.
-/

/-! ## Association lists (JavaScript objects / Maps used as dictionaries) -/

/-- Lookup of a key in an association list (first binding wins, like a JS
object read). -/
def lookupA {α β : Type} [DecidableEq α] : List (α × β) → α → Option β
  | [], _ => none
  | p :: rest, k => if p.1 = k then some p.2 else lookupA rest k

/-- Assignment `obj[k] = v` on an association list: replaces the first
binding of `k` in place, or appends a new binding at the end (JS object /
`Map.set` insertion-order semantics). -/
def setA {α β : Type} [DecidableEq α] : List (α × β) → α → β → List (α × β)
  | [], k, v => [(k, v)]
  | p :: rest, k, v => if p.1 = k then (k, v) :: rest else p :: setA rest k v

theorem lookupA_setA_self {α β : Type} [DecidableEq α]
    (l : List (α × β)) (k : α) (v : β) : lookupA (setA l k v) k = some v := by
  induction l with
  | nil => simp [setA, lookupA]
  | cons p rest ih =>
    by_cases h : p.1 = k
    · simp [setA, h, lookupA]
    · simp [setA, h, lookupA, ih]

theorem lookupA_setA_ne {α β : Type} [DecidableEq α]
    (l : List (α × β)) (k j : α) (v : β) (h : j ≠ k) :
    lookupA (setA l k v) j = lookupA l j := by
  have hkj : ¬ k = j := fun he => h he.symm
  induction l with
  | nil => simp [setA, lookupA, hkj]
  | cons p rest ih =>
    by_cases hp : p.1 = k
    · subst hp
      simp [setA, lookupA, hkj]
    · by_cases hj : p.1 = j
      · simp [setA, hp, lookupA, hj, h]
      · simp [setA, hp, lookupA, hj, ih]

theorem mem_setA_fst {α β : Type} [DecidableEq α]
    (l : List (α × β)) (k : α) (v : β) (q : α × β) (hq : q ∈ setA l k v) :
    q.1 = k ∨ q.1 ∈ l.map Prod.fst := by
  induction l with
  | nil =>
    simp [setA] at hq
    subst hq; left; rfl
  | cons p rest ih =>
    by_cases hp : p.1 = k
    · simp only [setA, hp, if_true, List.mem_cons] at hq
      rcases hq with hq | hq
      · subst hq; left; rfl
      · right
        exact List.mem_map.mpr ⟨q, List.mem_cons_of_mem _ hq, rfl⟩
    · simp only [setA, hp, if_false, List.mem_cons] at hq
      rcases hq with hq | hq
      · subst hq; right; simp
      · rcases ih hq with h1 | h1
        · left; exact h1
        · right; simp only [List.map_cons, List.mem_cons]; right; exact h1

theorem setA_keys_nodup {α β : Type} [DecidableEq α]
    (l : List (α × β)) (k : α) (v : β) (h : (l.map Prod.fst).Nodup) :
    ((setA l k v).map Prod.fst).Nodup := by
  induction l with
  | nil => simp [setA]
  | cons p rest ih =>
    simp only [List.map_cons, List.nodup_cons] at h
    by_cases hp : p.1 = k
    · subst hp
      have hs : setA (p :: rest) p.1 v = (p.1, v) :: rest := by simp [setA]
      rw [hs]
      simp only [List.map_cons, List.nodup_cons]
      exact ⟨h.1, h.2⟩
    · simp only [setA, hp, if_false, List.map_cons, List.nodup_cons]
      refine ⟨?_, ih h.2⟩
      intro hm
      rcases List.mem_map.mp hm with ⟨q, hq, he⟩
      rcases mem_setA_fst rest k v q hq with h1 | h1
      · exact hp (he ▸ h1)
      · exact h.1 (he ▸ h1)

theorem lookupA_eq_of_mem_nodup {α β : Type} [DecidableEq α]
    (l : List (α × β)) (k : α) (v : β)
    (hmem : (k, v) ∈ l) (hnd : (l.map Prod.fst).Nodup) :
    lookupA l k = some v := by
  induction l with
  | nil => simp at hmem
  | cons p rest ih =>
    simp only [List.map_cons, List.nodup_cons] at hnd
    rcases List.mem_cons.mp hmem with h | h
    · subst h; simp [lookupA]
    · have hne : p.1 ≠ k := by
        intro he
        exact hnd.1 (List.mem_map.mpr ⟨(k, v), h, by simpa using he.symm⟩)
      simp [lookupA, hne, ih h hnd.2]

theorem lookupA_none_of_forall_ne {α β : Type} [DecidableEq α]
    (l : List (α × β)) (k : α) (h : ∀ p ∈ l, p.1 ≠ k) : lookupA l k = none := by
  induction l with
  | nil => rfl
  | cons p rest ih =>
    simp [lookupA, h p (List.mem_cons_self _ _), ih fun q hq => h q (List.mem_cons_of_mem _ hq)]

/-! ## StatsCollector (src/lib/utils.js, lines 374–399)

`this.stats` is a plain JS object from counter name to number; every number
that the pipeline stores in it is integral, so values are modelled as `Int`.
The `startTime` / elapsed-time part of `summary()` is wall-clock I/O and does
not touch the counter map; `summary` is therefore modelled as leaving the
counter map unchanged. -/

/-- The counter map of a `StatsCollector` instance. -/
def SC : Type := List (String × Int)

instance : DecidableEq SC := by unfold SC; infer_instance

/-- Model of `get(key)`: `return this.stats[key] || 0` (a stored `0` and an
absent key both read back as `0`, exactly as with `|| 0`). -/
def SCget (s : SC) (k : String) : Int := (lookupA s k).getD 0

/-- Model of `increment(key, amount = 1)`:
`this.stats[key] = (this.stats[key] || 0) + amount`. -/
def SCincrement (s : SC) (k : String) (amount : Int) : SC :=
  setA s k (SCget s k + amount)

/-- Model of `set(key, value)`: `this.stats[key] = value`. -/
def SCset (s : SC) (k : String) (v : Int) : SC := setA s k v

theorem SCget_increment_self (s : SC) (k : String) (a : Int) :
    SCget (SCincrement s k a) k = SCget s k + a := by
  simp [SCincrement, SCget, lookupA_setA_self]

theorem SCget_increment_ne (s : SC) (k j : String) (a : Int) (h : j ≠ k) :
    SCget (SCincrement s k a) j = SCget s j := by
  simp [SCincrement, SCget, lookupA_setA_ne _ _ _ _ h]

/-- One observable operation on a `StatsCollector` within a run, as listed by
the spec: `increment`, `set`, `get`, `summary`. -/
inductive StatsOp where
  | increment (k : String) (amount : Int)
  | set (k : String) (v : Int)
  | get (k : String)
  | summary
deriving DecidableEq

/-- Effect of one operation on the counter map. `get` and `summary` read
without writing. -/
def applyStatsOp (s : SC) : StatsOp → SC
  | .increment k a => SCincrement s k a
  | .set k v => SCset s k v
  | .get _ => s
  | .summary => s

/-- Sequential application of a list of operations to one collector
instance. -/
def applyStatsOps (s : SC) (ops : List StatsOp) : SC := ops.foldl applyStatsOp s

/-- Operations that can only grow a counter: `increment` with a non-negative
amount, and the read-only `get` / `summary`.  `set` is excluded. -/
def monoStatsOp : StatsOp → Prop
  | .increment _ a => 0 ≤ a
  | .set _ _ => False
  | .get _ => True
  | .summary => True

instance : DecidablePred monoStatsOp := by
  intro op; cases op <;> simp [monoStatsOp] <;> infer_instance

/-- C9 counterexample: the claim says no operation of a `StatsCollector`
(`increment`, `set`, `get`, `summary`) ever makes a counter smaller.  With
the collector state `[("a", 1)]` obtained by `increment "a" 1`, the listed
operation `set "a" 0` lowers the counter `"a"` from `1` to `0`, so the claim
as stated is false. -/
theorem c9_counterexample :
    SCget (applyStatsOps [] [StatsOp.increment "a" 1]) "a" = 1 ∧
    SCget (applyStatsOps [] [StatsOp.increment "a" 1, StatsOp.set "a" 0]) "a" = 0 ∧
    ¬ SCget (applyStatsOps [] [StatsOp.increment "a" 1]) "a" ≤
        SCget (applyStatsOps [] [StatsOp.increment "a" 1, StatsOp.set "a" 0]) "a" := by
  refine ⟨by decide, by decide, by decide⟩

/-- C9 amended: for every `StatsCollector` state and every sequence of
`increment` operations with non-negative amounts together with the read-only
`get` and `summary` operations, every counter is monotonically
non-decreasing.  (`set key value` writes an arbitrary value and can lower a
counter, as the counterexample shows.) -/
theorem c9_amended (s : SC) (ops : List StatsOp) (k : String)
    (h : ∀ op ∈ ops, monoStatsOp op) :
    SCget s k ≤ SCget (applyStatsOps s ops) k := by
  induction ops generalizing s with
  | nil => simp [applyStatsOps]
  | cons op rest ih =>
    have hop := h op (List.mem_cons_self _ _)
    have hrest : ∀ o ∈ rest, monoStatsOp o := fun o ho => h o (List.mem_cons_of_mem _ ho)
    have step : SCget s k ≤ SCget (applyStatsOp s op) k := by
      cases op with
      | increment j a =>
        by_cases hj : k = j
        · subst hj
          simp only [applyStatsOp, SCget_increment_self]
          exact le_add_of_nonneg_right hop
        · simp [applyStatsOp, SCget_increment_ne _ _ _ _ hj]
      | set j v => exact absurd hop (by simp [monoStatsOp])
      | get j => simp [applyStatsOp]
      | summary => simp [applyStatsOp]
    calc SCget s k ≤ SCget (applyStatsOp s op) k := step
      _ ≤ SCget (applyStatsOps (applyStatsOp s op) rest) k := ih _ hrest
      _ = SCget (applyStatsOps s (op :: rest)) k := by simp [applyStatsOps]

/-- C9 witness: a concrete monotone run — starting from `[("a", 2)]`, the
sequence `increment "a" 3; get "a"; summary` leaves counter `"a"` at least
`2`. -/
theorem c9_witness :
    SCget [("a", (2 : Int))] "a" ≤
      SCget (applyStatsOps [("a", (2 : Int))]
        [StatsOp.increment "a" 3, StatsOp.get "a", StatsOp.summary]) "a" :=
  c9_amended [("a", (2 : Int))]
    [StatsOp.increment "a" 3, StatsOp.get "a", StatsOp.summary] "a" (by decide)

/-! ## Filesystem model for the Symlink Manager (src/lib/utils.js, lines 273–285)

The directory entries that `createSymlink` can touch are regular files and
symlinks, modelled as a finite association list from absolute path strings to
entries.  `fs.existsSync` follows symlink chains (it reports `false` on a
broken symlink); `fs.promises.unlink` removes the directory entry itself;
`fs.promises.symlink` fails with `EEXIST` when any entry — broken symlink
included — already occupies the target path. -/

/-- A directory entry: a regular file with byte contents, or a symlink
holding a target path. -/
inductive FsEntry where
  | file (content : List Nat)
  | symlink (target : String)
deriving DecidableEq

/-- The filesystem: a finite map from paths to entries. -/
abbrev FS : Type := List (String × FsEntry)

/-- Follow a path through symlink chains down to file contents, with
explicit fuel to keep the function total; a dangling path or an exhausted
chain yields `none`. -/
def resolveFS (fs : FS) : Nat → String → Option (List Nat)
  | 0, _ => none
  | f + 1, p =>
    match lookupA fs p with
    | some (.file c) => some c
    | some (.symlink t) => resolveFS fs f t
    | none => none

/-- Model of `fs.existsSync(p)`: true exactly when the path resolves through
symlinks to an existing file — a broken symlink reports `false`.  `fs.length
+ 1` fuel suffices for every chain the map can hold. -/
def existsSyncFS (fs : FS) (p : String) : Bool := (resolveFS fs (fs.length + 1) p).isSome

/-- Model of `fs.promises.unlink(p)`: removes the directory entry at `p`
itself (never the target of a symlink). -/
def unlinkFS (fs : FS) (p : String) : FS := fs.filter fun e => decide (e.1 ≠ p)

/-- Model of `fs.promises.symlink(src, tgt)`: fails (`EEXIST`) when any
entry, broken symlink included, already occupies `tgt`; otherwise records
the new symlink. -/
def symlinkFS (fs : FS) (src tgt : String) : FS × Bool :=
  match lookupA fs tgt with
  | some _ => (fs, false)
  | none => ((tgt, .symlink src) :: fs, true)

/-- Model of `files.createSymlink(sourcePath, targetPath)`
(src/lib/utils.js, lines 273–285): when `fs.existsSync(target)` reports
true, unlink the target first; then create the symlink; any error is caught
and turned into a `false` return value. -/
def createSymlink (fs : FS) (sourcePath targetPath : String) : FS × Bool :=
  let fs1 := if existsSyncFS fs targetPath then unlinkFS fs targetPath else fs
  symlinkFS fs1 sourcePath targetPath

/-- Number of directory entries at a given path. -/
def countKey (fs : FS) (p : String) : Nat := (fs.filter fun e => decide (e.1 = p)).length

theorem resolveFS_file (fs : FS) (f : Nat) (p : String) (c : List Nat)
    (h : lookupA fs p = some (.file c)) (hf : 1 ≤ f) : resolveFS fs f p = some c := by
  cases f with
  | zero => omega
  | succ f2 => simp [resolveFS, h]

theorem resolveFS_link_file (fs : FS) (f : Nat) (p t : String) (c : List Nat)
    (h1 : lookupA fs p = some (.symlink t)) (h2 : lookupA fs t = some (.file c))
    (hf : 2 ≤ f) : resolveFS fs f p = some c := by
  cases f with
  | zero => omega
  | succ f2 =>
    simp only [resolveFS, h1]
    exact resolveFS_file fs f2 t c h2 (by omega)

theorem unlinkFS_of_lookup_none (fs : FS) (p : String) (h : lookupA fs p = none) :
    unlinkFS fs p = fs := by
  induction fs with
  | nil => rfl
  | cons e rest ih =>
    simp only [lookupA] at h
    by_cases he : e.1 = p
    · simp [he] at h
    · simp only [he, if_false] at h
      simp [unlinkFS, he, List.filter] at ih ⊢
      exact ih h

theorem lookupA_unlinkFS_self (fs : FS) (p : String) : lookupA (unlinkFS fs p) p = none := by
  apply lookupA_none_of_forall_ne
  intro q hq
  have := List.of_mem_filter hq
  simpa using this

theorem unlinkFS_cons (e : String × FsEntry) (rest : FS) (p : String) :
    unlinkFS (e :: rest) p = if e.1 = p then unlinkFS rest p else e :: unlinkFS rest p := by
  by_cases he : e.1 = p
  · simp [unlinkFS, List.filter, he]
  · simp [unlinkFS, List.filter, he]

theorem lookupA_unlinkFS_ne (fs : FS) (p q : String) (h : q ≠ p) :
    lookupA (unlinkFS fs p) q = lookupA fs q := by
  have hpq : ¬ p = q := fun hh => h hh.symm
  induction fs with
  | nil => rfl
  | cons e rest ih =>
    rw [unlinkFS_cons]
    by_cases he : e.1 = p
    · rw [if_pos he, ih]
      have he2 : ¬ e.1 = q := by rw [he]; exact hpq
      simp [lookupA, he2]
    · rw [if_neg he]
      by_cases hq : e.1 = q
      · simp [lookupA, hq]
      · simp [lookupA, hq, ih]

theorem countKey_eq_zero_of_lookup_none (fs : FS) (p : String)
    (h : lookupA fs p = none) : countKey fs p = 0 := by
  induction fs with
  | nil => rfl
  | cons e rest ih =>
    simp only [lookupA] at h
    by_cases he : e.1 = p
    · simp [he] at h
    · simp only [he, if_false] at h
      simp [countKey, List.filter, he] at ih ⊢
      exact ih h

theorem countKey_unlinkFS_self (fs : FS) (p : String) : countKey (unlinkFS fs p) p = 0 :=
  countKey_eq_zero_of_lookup_none _ _ (lookupA_unlinkFS_self fs p)

/-- C3 counterexample: the claim says `createSymlink(source, target)` called
twice with the same arguments succeeds both times.  Run on an empty
filesystem with a source path `"s"` that does not exist, the first call
creates a (broken) symlink and returns true, but the second call finds
`fs.existsSync(target)` false for the broken link, skips the unlink, and the
`symlink` syscall then fails with `EEXIST`: it returns false.  The
pre-existing broken symlink at the target is also not removed, contradicting
the removal clause of the claim. -/
theorem c3_counterexample :
    (createSymlink [] "s" "t").2 = true ∧
    (createSymlink (createSymlink [] "s" "t").1 "s" "t").2 = false ∧
    (createSymlink (createSymlink [] "s" "t").1 "s" "t").1 = [("t", FsEntry.symlink "s")] := by
  refine ⟨by decide, by decide, by decide⟩

theorem createSymlink_clean (fsb : FS) (src tgt : String)
    (h2 : lookupA fsb tgt = none) :
    createSymlink fsb src tgt = ((tgt, .symlink src) :: fsb, true) := by
  have hex : existsSyncFS fsb tgt = false := by
    simp [existsSyncFS, resolveFS, h2]
  simp [createSymlink, hex, symlinkFS, h2]

theorem lookupA_cons_head_link (fsb : FS) (src tgt : String) :
    lookupA ((tgt, FsEntry.symlink src) :: fsb) tgt = some (.symlink src) := by
  simp [lookupA]

theorem lookupA_cons_link_src (fsb : FS) (src tgt : String) (e : Option FsEntry)
    (hne : src ≠ tgt) (h1 : lookupA fsb src = e) :
    lookupA ((tgt, FsEntry.symlink src) :: fsb) src = e := by
  have : ¬ tgt = src := fun hh => hne hh.symm
  simp [lookupA, this, h1]

theorem existsSync_head_link (fsb : FS) (src tgt : String) (c : List Nat)
    (h1 : lookupA fsb src = some (.file c)) (hne : src ≠ tgt) :
    existsSyncFS ((tgt, FsEntry.symlink src) :: fsb) tgt = true := by
  simp only [existsSyncFS]
  rw [resolveFS_link_file _ _ tgt src c (lookupA_cons_head_link fsb src tgt)
    (lookupA_cons_link_src fsb src tgt _ hne h1) (by simp)]
  rfl

theorem createSymlink_relink (fsb : FS) (src tgt : String) (c : List Nat)
    (h1 : lookupA fsb src = some (.file c)) (h2 : lookupA fsb tgt = none)
    (hne : src ≠ tgt) :
    createSymlink ((tgt, .symlink src) :: fsb) src tgt
      = ((tgt, .symlink src) :: fsb, true) := by
  have hex := existsSync_head_link fsb src tgt c h1 hne
  have hun : unlinkFS ((tgt, FsEntry.symlink src) :: fsb) tgt = fsb := by
    rw [unlinkFS_cons, if_pos rfl, unlinkFS_of_lookup_none fsb tgt h2]
  simp [createSymlink, hex, hun, symlinkFS, h2]

/-- C3 amended: provided the source path is an existing regular file and the
target path is either free or currently resolvable (i.e. not a broken
symlink), `createSymlink(source, target)` removes any pre-existing entity at
the target, creates the link, and calling it twice with the same arguments
succeeds both times and leaves exactly one, non-broken, link
target → source.  (A broken symlink at the target is not removed — the
existence probe follows links — and makes the call fail, as the
counterexample shows.) -/
theorem c3_amended (fs : FS) (src tgt : String) (c : List Nat)
    (hsrc : lookupA fs src = some (.file c)) (hne : src ≠ tgt)
    (htgt : lookupA fs tgt = none ∨ existsSyncFS fs tgt = true) :
    (createSymlink fs src tgt).2 = true ∧
    (createSymlink (createSymlink fs src tgt).1 src tgt).2 = true ∧
    lookupA (createSymlink (createSymlink fs src tgt).1 src tgt).1 tgt
      = some (.symlink src) ∧
    existsSyncFS (createSymlink (createSymlink fs src tgt).1 src tgt).1 tgt = true ∧
    countKey (createSymlink (createSymlink fs src tgt).1 src tgt).1 tgt = 1 := by
  -- in both allowed target states the first call yields a clean base `fsb`
  -- with the fresh link on top
  obtain ⟨fsb, hb1, hb2, hcall1⟩ :
      ∃ fsb : FS, lookupA fsb src = some (.file c) ∧ lookupA fsb tgt = none ∧
        createSymlink fs src tgt = ((tgt, .symlink src) :: fsb, true) := by
    rcases htgt with h | h
    · exact ⟨fs, hsrc, h, createSymlink_clean fs src tgt h⟩
    · refine ⟨unlinkFS fs tgt, ?_, lookupA_unlinkFS_self fs tgt, ?_⟩
      · rw [lookupA_unlinkFS_ne fs tgt src hne]; exact hsrc
      · have hb1 : lookupA (unlinkFS fs tgt) src = some (.file c) := by
          rw [lookupA_unlinkFS_ne fs tgt src hne]; exact hsrc
        simp only [createSymlink, h, if_true]
        simp [symlinkFS, lookupA_unlinkFS_self fs tgt]
  have hcall2 := createSymlink_relink fsb src tgt c hb1 hb2 hne
  refine ⟨by rw [hcall1], ?_, ?_, ?_, ?_⟩
  · rw [hcall1]; simp only [hcall2]
  · rw [hcall1]; simp only [hcall2]
    exact lookupA_cons_head_link fsb src tgt
  · rw [hcall1]; simp only [hcall2]
    exact existsSync_head_link fsb src tgt c hb1 hne
  · rw [hcall1]; simp only [hcall2]
    simp only [countKey, List.filter]
    have h0 := countKey_eq_zero_of_lookup_none fsb tgt hb2
    simp only [countKey] at h0
    simp [h0]

/-- C3 witness: the amended theorem applied to the one-file filesystem
`[("s", file [1])]`, linking `"t"` to the existing source `"s"` twice. -/
theorem c3_witness :
    (createSymlink [("s", FsEntry.file [1])] "s" "t").2 = true ∧
    (createSymlink (createSymlink [("s", FsEntry.file [1])] "s" "t").1 "s" "t").2 = true ∧
    lookupA (createSymlink (createSymlink [("s", FsEntry.file [1])] "s" "t").1 "s" "t").1 "t"
      = some (.symlink "s") ∧
    existsSyncFS (createSymlink (createSymlink [("s", FsEntry.file [1])] "s" "t").1 "s" "t").1 "t"
      = true ∧
    countKey (createSymlink (createSymlink [("s", FsEntry.file [1])] "s" "t").1 "s" "t").1 "t"
      = 1 :=
  c3_amended [("s", FsEntry.file [1])] "s" "t" [1] (by decide) (by decide)
    (Or.inl (by decide))

/-! ## SQLite signature probe and static-file routing
(src/lib/utils.js lines 259–271, src/lib/processors/file-indexing.js lines 52–73)

`isValidSQLite` opens the file, reads up to 16 bytes at offset 0 into a
zero-initialised 16-byte buffer (`Buffer.alloc(16)` zero-fills, and a short
read leaves the tail zero), and compares `buffer.toString('ascii', 0, 16)`
with `'SQLite format 3\0'`.  Node's `'ascii'` decoder keeps only the low 7
bits of every byte, so the comparison sees each byte modulo 128 and the
zero padding. -/

/-- The 16 bytes of `'SQLite format 3\0'`. -/
def sqliteHeader : List Nat :=
  [83, 81, 76, 105, 116, 101, 32, 102, 111, 114, 109, 97, 116, 32, 51, 0]

/-- The 16 bytes that `isValidSQLite` actually compares: the first
`min 16 len` bytes of the file, each masked to 7 bits by the `'ascii'`
decoding, zero-padded to 16 bytes when the file is shorter. -/
def readFirst16 (content : List Nat) : List Nat :=
  (content.take 16).map (fun b => b % 128)
    ++ List.replicate (16 - (content.take 16).length) 0

/-- Model of `files.isValidSQLite(filePath)`: resolve the path (the `open`
follows symlinks), probe the first 16 bytes as above; any error — e.g. the
path does not resolve — is caught and yields `false`. -/
def isValidSQLiteFS (fs : FS) (p : String) : Bool :=
  match resolveFS fs (fs.length + 1) p with
  | some c => decide (readFirst16 c = sqliteHeader)
  | none => false

/-- Destination of the `static` symlink for a file name
(`data/static/<name>.static`). -/
def staticTarget (filename : String) : String := "data/static/" ++ filename ++ ".static"

/-- Destination of the additional SQLite symlink
(`data/sqlite/<name>.sqlite`). -/
def sqliteTarget (filename : String) : String := "data/sqlite/" ++ filename ++ ".sqlite"

/-- Model of `processStaticFile(filename, sourcePath, stats)`
(src/lib/processors/file-indexing.js lines 52–73): link the static file; on
link failure return without counting; otherwise probe the source with
`isValidSQLite` and, when it reports true, additionally link into the
sqlite directory (counting `sqliteLinked` only when that link succeeded);
finally count `staticLinked`. -/
def processStaticFile (fs : FS) (filename sourcePath : String) (stats : SC) : FS × SC :=
  let r1 := createSymlink fs sourcePath (staticTarget filename)
  if r1.2 = false then (r1.1, stats)
  else
    if isValidSQLiteFS r1.1 sourcePath then
      let r2 := createSymlink r1.1 sourcePath (sqliteTarget filename)
      let stats1 := if r2.2 then SCincrement stats "sqliteLinked" 1 else stats
      (r2.1, SCincrement stats1 "staticLinked" 1)
    else (r1.1, SCincrement stats "staticLinked" 1)

/-- C4 counterexample: the claim says a static file whose first 16 bytes do
not equal the 16-byte signature is never linked into the sqlite directory.
A 15-byte file holding `'SQLite format 3'` without the trailing NUL has no
16 bytes at all (its 16-byte prefix is the whole 15-byte content, not the
signature), yet the zero-padded buffer comparison accepts it and the sqlite
symlink is created. -/
theorem c4_counterexample :
    (sqliteHeader.take 15).take 16 ≠ sqliteHeader ∧
    lookupA (processStaticFile [("src", FsEntry.file (sqliteHeader.take 15))]
        "x" "src" []).1 (sqliteTarget "x") = some (.symlink "src") ∧
    SCget (processStaticFile [("src", FsEntry.file (sqliteHeader.take 15))]
        "x" "src" []).2 "sqliteLinked" = 1 := by
  refine ⟨by decide, by decide, by decide⟩

theorem lookupA_cons_ne_key {β : Type} (l : List (String × β)) (k j : String) (v : β)
    (h : ¬ k = j) : lookupA ((k, v) :: l) j = lookupA l j := by
  simp [lookupA, h]

/-- C4 amended: for a static entry whose source path is an existing regular
file and whose two destination paths are previously unoccupied and distinct
from the source, the sqlite symlink is created if and only if the probed
16 bytes — the file's first `min 16 len` bytes masked to their low 7 bits by
the `'ascii'` decoding and zero-padded to 16 when the file is shorter —
equal the signature `'SQLite format 3\0'`; `staticLinked` is always counted
and `sqliteLinked` exactly when the probe matched. -/
theorem c4_amended (fs : FS) (fn src : String) (c : List Nat) (stats : SC)
    (hsrc : lookupA fs src = some (.file c))
    (hstat : lookupA fs (staticTarget fn) = none)
    (hsql : lookupA fs (sqliteTarget fn) = none)
    (h1 : src ≠ staticTarget fn)
    (h3 : sqliteTarget fn ≠ staticTarget fn) :
    (lookupA (processStaticFile fs fn src stats).1 (sqliteTarget fn)
        = some (.symlink src) ↔ readFirst16 c = sqliteHeader) ∧
    SCget (processStaticFile fs fn src stats).2 "staticLinked"
      = SCget stats "staticLinked" + 1 ∧
    SCget (processStaticFile fs fn src stats).2 "sqliteLinked"
      = SCget stats "sqliteLinked"
        + (if readFirst16 c = sqliteHeader then 1 else 0) := by
  have hcall1 := createSymlink_clean fs src (staticTarget fn) hstat
  have hfs1src : lookupA ((staticTarget fn, FsEntry.symlink src) :: fs) src
      = some (.file c) := by
    have : ¬ staticTarget fn = src := fun hh => h1 hh.symm
    simp [lookupA, this, hsrc]
  have hvalid : isValidSQLiteFS ((staticTarget fn, FsEntry.symlink src) :: fs) src
      = decide (readFirst16 c = sqliteHeader) := by
    simp only [isValidSQLiteFS]
    rw [resolveFS_file _ _ src c hfs1src (by simp)]
  have hfs1sql : lookupA ((staticTarget fn, FsEntry.symlink src) :: fs) (sqliteTarget fn)
      = none := by
    have : ¬ staticTarget fn = sqliteTarget fn := fun hh => h3 hh.symm
    simp [lookupA, this, hsql]
  by_cases hsig : readFirst16 c = sqliteHeader
  · have hcall2 := createSymlink_clean
      ((staticTarget fn, FsEntry.symlink src) :: fs) src (sqliteTarget fn) hfs1sql
    simp only [processStaticFile, hcall1, hvalid, hsig, decide_True, if_true,
      Bool.false_eq_true, if_false, hcall2]
    refine ⟨?_, ?_, ?_⟩
    · simp [lookupA, hsig]
    · simp [SCget_increment_self, SCget_increment_ne _ _ _ _ (by decide : ("staticLinked" : String) ≠ "sqliteLinked")]
    · simp [hsig, SCget_increment_self,
        SCget_increment_ne _ _ _ _ (by decide : ("sqliteLinked" : String) ≠ "staticLinked")]
  · simp only [processStaticFile, hcall1, hvalid, hsig, decide_False,
      Bool.false_eq_true, if_false]
    refine ⟨?_, ?_, ?_⟩
    · simp [hfs1sql]
    · simp [SCget_increment_self]
    · simp [hsig, SCget_increment_ne _ _ _ _ (by decide : ("sqliteLinked" : String) ≠ "staticLinked")]

/-- C4 witness: the amended theorem applied to a filesystem holding one
genuine SQLite file (its first 16 bytes are exactly the signature). -/
theorem c4_witness :
    (lookupA (processStaticFile [("src", FsEntry.file sqliteHeader)] "x" "src" []).1
        (sqliteTarget "x") = some (.symlink "src") ↔ readFirst16 sqliteHeader = sqliteHeader) ∧
    SCget (processStaticFile [("src", FsEntry.file sqliteHeader)] "x" "src" []).2
        "staticLinked" = SCget [] "staticLinked" + 1 ∧
    SCget (processStaticFile [("src", FsEntry.file sqliteHeader)] "x" "src" []).2
        "sqliteLinked" = SCget [] "sqliteLinked"
          + (if readFirst16 sqliteHeader = sqliteHeader then 1 else 0) :=
  c4_amended [("src", FsEntry.file sqliteHeader)] "x" "src" sqliteHeader []
    (by decide) (by decide) (by decide) (by decide) (by decide)

/-! ## The manifest-line parser (src/lib/processors/file-indexing.js, line 140)

`processIndexFile` matches every line against the anchored JavaScript regex

  `^(.*?)([^\/]+)\.([^,]+),([^,]+)(.*)$`

Group 1 (`respath`) is lazy, groups 2–4 are greedy, so the engine picks the
shortest group 1 admitting a match and, given that, the longest group 2
(a nonempty run without `/`) ending right before a literal `.`, then the
longest group 3 (nonempty, no `,`) ending right before a literal `,`, then
the longest group 4 (nonempty, no `,`); group 5 takes the remainder.  The
matcher below implements exactly this backtracking order on `List Char`. -/

/-- Longest comma-free prefix and the remainder (the remainder is empty or
starts with `','`). -/
def spanComma : List Char → List Char × List Char
  | [] => ([], [])
  | c :: rest =>
    if c = ',' then ([], c :: rest)
    else
      let p := spanComma rest
      (c :: p.1, p.2)

/-- Longest slash-free prefix of a string. -/
def slashRun : List Char → List Char
  | [] => []
  | c :: rest => if c = '/' then [] else c :: slashRun rest

/-- Match of `([^,]+),([^,]+)(.*)$` against the text after the chosen dot:
the greedy group 3 is forced to the full comma-free run (a shorter one would
face a non-comma next), which must be nonempty and followed by a comma, and
group 4 likewise. -/
def tryTail (afterDot : List Char) : Option (List Char × List Char × List Char) :=
  let p := spanComma afterDot
  match p.2 with
  | [] => none
  | _ :: tail2 =>
    if p.1 = [] then none
    else
      let q := spanComma tail2
      if q.1 = [] then none else some (p.1, q.1, q.2)

/-- Backtracking over the possible lengths of the greedy group 2, from `m`
down to `1`: group 2 is `s.take j` when `s.get? j` is the literal dot and
the rest of the pattern matches after it. -/
def tryKs (s : List Char) : Nat → Option (List Char × List Char × List Char × List Char)
  | 0 => none
  | j + 1 =>
    if s.get? (j + 1) = some '.' then
      match tryTail (s.drop (j + 2)) with
      | some (g3, g4, g5) => some (s.take (j + 1), g3, g4, g5)
      | none => tryKs s j
    else tryKs s j

/-- Attempt to match `([^\/]+)\.([^,]+),([^,]+)(.*)$` at the current
position: group 2 lives inside the maximal slash-free run, and its
terminating dot sits at an index below the run's length. -/
def tryHere (s : List Char) : Option (List Char × List Char × List Char × List Char) :=
  tryKs s ((slashRun s).length - 1)

/-- The full anchored match: the lazy group 1 grows one character at a time
until the rest of the pattern matches. Returns the five groups. -/
def matchCore : List Char → Option (List Char × List Char × List Char × List Char × List Char)
  | [] => none
  | c :: rest =>
    match tryHere (c :: rest) with
    | some (g2, g3, g4, g5) => some ([], g2, g3, g4, g5)
    | none =>
      match matchCore rest with
      | some (g1, g2, g3, g4, g5) => some (c :: g1, g2, g3, g4, g5)
      | none => none

/-- One parsed manifest entry: `[_, respath, filename, filetype,
sourceRelativePath]` from the regex destructuring (the trailing group is
dropped, as in the source). -/
structure IndexEntry where
  respath : List Char
  filename : List Char
  filetype : List Char
  physpath : List Char
deriving DecidableEq

/-- Parse one manifest line: `line.match(regex)` projected onto the four
used capture groups; `none` when the regex does not match (the `continue`
branch). -/
def parseLine (s : List Char) : Option IndexEntry :=
  (matchCore s).map fun g => ⟨g.1, g.2.1, g.2.2.1, g.2.2.2.1⟩

/-! ## The manifest scan loop (src/lib/processors/file-indexing.js, lines 145–186)

The loop state visible to the claims is the `StatsCollector` counter map
plus the number of warning lines logged by the per-entry `catch`.  The five
per-type handlers and the source-file existence test are abstracted as
parameters: `exF` is `fs.existsSync` applied to the entry's resolved source
path, `handler e st` is the state after the dispatched handler ran its
course (including any partial effects before a throw), and `hthrows e`
tells whether the handler threw (landing in the `catch` that logs a
warning). -/

structure ScanState where
  stats : SC
  warnings : Nat
deriving DecidableEq

/-- Model of one iteration of the `for await (const line of rl)` loop:
unmatched lines `continue` untouched; matched lines count `totalProcessed`
first, then the missing-source check skips the handler, and a handler throw
is caught and logged. -/
def processLine (exF : List Char → Bool)
    (handler : IndexEntry → ScanState → ScanState)
    (hthrows : IndexEntry → Bool)
    (st : ScanState) (line : List Char) : ScanState :=
  match parseLine line with
  | none => st
  | some e =>
    let st1 : ScanState := { st with stats := SCincrement st.stats "totalProcessed" 1 }
    if exF e.physpath then
      let st2 := handler e st1
      if hthrows e then { st2 with warnings := st2.warnings + 1 } else st2
    else st1

/-- The whole scan: the loop walks the lines strictly in file order. -/
def processLines (exF : List Char → Bool)
    (handler : IndexEntry → ScanState → ScanState)
    (hthrows : IndexEntry → Bool)
    (st : ScanState) (lines : List (List Char)) : ScanState :=
  lines.foldl (processLine exF handler hthrows) st

/-- Number of manifest lines that match the regex. -/
def countMatched (lines : List (List Char)) : Nat :=
  (lines.filter fun l => (parseLine l).isSome).length

/-- C1 counterexample: the claim says a matched line whose source file is
missing leaves `totalProcessed` unchanged.  On the single line `"a.b,c"`
with an existence test that always fails, no handler runs, yet
`totalProcessed` ends at `1`, not `0`: the counter is incremented before
the existence check. -/
theorem c1_counterexample :
    SCget (processLine (fun _ => false) (fun _ st => st) (fun _ => false)
        ⟨[], 0⟩ ("a.b,c".data)).stats "totalProcessed" = 1 ∧
    ¬ SCget (processLine (fun _ => false) (fun _ st => st) (fun _ => false)
        ⟨[], 0⟩ ("a.b,c".data)).stats "totalProcessed"
      = SCget ([] : SC) "totalProcessed" := by
  refine ⟨by decide, by decide⟩

/-- C1 amended: a matched manifest line whose `physicalRelativePath` does
not resolve to an existing source file is skipped without running any
handler (the final state is the same for every handler and throw oracle,
and no warning is logged) — but the line is still counted: the
`totalProcessed` counter is incremented for it exactly as for handled
lines, because the increment precedes the existence check. -/
theorem c1_amended (exF : List Char → Bool)
    (handler : IndexEntry → ScanState → ScanState) (hthrows : IndexEntry → Bool)
    (st : ScanState) (line : List Char) (e : IndexEntry)
    (hp : parseLine line = some e) (hex : exF e.physpath = false) :
    processLine exF handler hthrows st line
      = { st with stats := SCincrement st.stats "totalProcessed" 1 } := by
  simp [processLine, hp, hex]

/-- C1 witness: the amended theorem at the concrete line `"a.b,c"` with an
always-false existence test. -/
theorem c1_witness :
    processLine (fun _ => false) (fun _ st => ⟨SCincrement st.stats "junk" 5, st.warnings⟩)
        (fun _ => true) ⟨[], 0⟩ ("a.b,c".data)
      = { stats := SCincrement ([] : SC) "totalProcessed" 1, warnings := 0 } :=
  c1_amended (fun _ => false) (fun _ st => ⟨SCincrement st.stats "junk" 5, st.warnings⟩)
    (fun _ => true) ⟨[], 0⟩ ("a.b,c".data)
    ⟨[], "a".data, "b".data, "c".data⟩ (by decide) rfl

/-- C6: a per-entry handler failure during the manifest scan is caught at
the line where it occurred and logged (the warning count rises by one while
the handler's partial state stands), and the scan continues: processing a
manifest is literally processing every line in order (prefix composition),
and the final `totalProcessed` equals the number of regex-matched lines —
independent of which entries threw — whenever the handlers themselves do
not touch that counter. -/
theorem c6_scan_continues :
    (∀ (exF : List Char → Bool) (handler : IndexEntry → ScanState → ScanState)
        (hthrows : IndexEntry → Bool) (st : ScanState) (l1 l2 : List (List Char)),
      processLines exF handler hthrows st (l1 ++ l2)
        = processLines exF handler hthrows (processLines exF handler hthrows st l1) l2) ∧
    (∀ (exF : List Char → Bool) (handler : IndexEntry → ScanState → ScanState)
        (hthrows : IndexEntry → Bool) (st : ScanState) (line : List Char) (e : IndexEntry),
      parseLine line = some e → exF e.physpath = true → hthrows e = true →
      processLine exF handler hthrows st line
        = { handler e { st with stats := SCincrement st.stats "totalProcessed" 1 } with
            warnings :=
              (handler e { st with stats := SCincrement st.stats "totalProcessed" 1 }).warnings
                + 1 }) ∧
    (∀ (exF : List Char → Bool) (handler : IndexEntry → ScanState → ScanState)
        (hthrows : IndexEntry → Bool) (st : ScanState) (lines : List (List Char)),
      (∀ e s, SCget (handler e s).stats "totalProcessed" = SCget s.stats "totalProcessed") →
      SCget (processLines exF handler hthrows st lines).stats "totalProcessed"
        = SCget st.stats "totalProcessed" + (countMatched lines : Int)) := by
  refine ⟨?_, ?_, ?_⟩
  · intro exF handler hthrows st l1 l2
    simp [processLines, List.foldl_append]
  · intro exF handler hthrows st line e hp hex hth
    simp [processLine, hp, hex, hth]
  · intro exF handler hthrows st lines hpres
    induction lines generalizing st with
    | nil => simp [processLines, countMatched]
    | cons l rest ih =>
      have hstep : ∀ st2 : ScanState,
          SCget (processLine exF handler hthrows st2 l).stats "totalProcessed"
            = SCget st2.stats "totalProcessed" + (if (parseLine l).isSome then 1 else 0) := by
        intro st2
        cases hp : parseLine l with
        | none => simp [processLine, hp]
        | some e =>
          simp only [processLine, hp, Option.isSome_some, if_true]
          by_cases hex : exF e.physpath
          · simp only [hex, if_true]
            by_cases hth : hthrows e
            · simp [hth, hpres, SCget_increment_self]
            · simp [hth, hpres, SCget_increment_self]
          · simp only [hex, Bool.false_eq_true, if_false]
            simp [SCget_increment_self]
      have hrest := ih (processLine exF handler hthrows st l)
      simp only [processLines, List.foldl_cons] at hrest ⊢
      rw [hrest, hstep st]
      have : countMatched (l :: rest)
          = (if (parseLine l).isSome then 1 else 0) + countMatched rest := by
        simp only [countMatched, List.filter]
        by_cases hp : (parseLine l).isSome
        · simp only [hp, if_true]
          simp [hp]
          omega
        · simp [hp]
      rw [this]
      push_cast
      ring

/-- C6 witness: the three conjuncts at concrete inputs — a two-line scan
splits as prefix-then-suffix; a throwing handler on the matched, existing
line `"a.b,c"` logs one warning on top of the handler's state; and a
mixed list with one throwing entry still counts both matched lines. -/
theorem c6_witness :
    processLines (fun _ => true) (fun _ st => st) (fun _ => true) ⟨[], 0⟩
        (["a.b,c".data] ++ ["nomatch".data])
      = processLines (fun _ => true) (fun _ st => st) (fun _ => true)
          (processLines (fun _ => true) (fun _ st => st) (fun _ => true) ⟨[], 0⟩
            ["a.b,c".data]) ["nomatch".data] ∧
    processLine (fun _ => true) (fun _ st => st) (fun _ => true) ⟨[], 0⟩ ("a.b,c".data)
      = { (⟨[], 0⟩ : ScanState) with
          stats := SCincrement ([] : SC) "totalProcessed" 1, warnings := 0 + 1 } ∧
    SCget (processLines (fun _ => true) (fun _ st => st) (fun _ => true) ⟨[], 0⟩
        ["a.b,c".data, "nomatch".data, "x.y,z".data]).stats "totalProcessed"
      = SCget ([] : SC) "totalProcessed"
        + (countMatched ["a.b,c".data, "nomatch".data, "x.y,z".data] : Int) := by
  refine ⟨?_, ?_, ?_⟩
  · exact c6_scan_continues.1 (fun _ => true) (fun _ st => st) (fun _ => true) ⟨[], 0⟩
      ["a.b,c".data] ["nomatch".data]
  · exact c6_scan_continues.2.1 (fun _ => true) (fun _ st => st) (fun _ => true) ⟨[], 0⟩
      ("a.b,c".data) ⟨[], "a".data, "b".data, "c".data⟩ (by decide) rfl rfl
  · exact c6_scan_continues.2.2 (fun _ => true) (fun _ st => st) (fun _ => true) ⟨[], 0⟩
      ["a.b,c".data, "nomatch".data, "x.y,z".data] (fun e s => rfl)

/-! ## The spec's §4.1 grammar rule (for comparison with the regex)

The spec states the parsing rule in words: each line has the form
`<logicalPath><fileNameStem>.<fileType>,<physicalRelativePath><trailingIgnored>`
where `<logicalPath>` is everything up to the last path separator before the
file name, `<fileNameStem>` is the longest run of non-separator characters
immediately preceding the final `.<fileType>` of the part before the first
comma, and `<physicalRelativePath>` is the text between the first comma and
the next comma (or line end).  `specDecompose` formalises exactly those
words (with the shape's components nonempty); it is the spec-side
definition, to be compared against `parseLine`, which came from the code. -/

/-- Split at the first occurrence of a character: `some (before, after)`
with the occurrence removed, `none` when absent. -/
def splitFirst (t : Char) : List Char → Option (List Char × List Char)
  | [] => none
  | c :: rest =>
    if c = t then some ([], rest)
    else
      match splitFirst t rest with
      | some (b, a) => some (c :: b, a)
      | none => none

/-- Split at the last occurrence of a character: `some (before, after)`
with the occurrence removed, `none` when absent. -/
def splitLast (t : Char) : List Char → Option (List Char × List Char)
  | [] => none
  | c :: rest =>
    match splitLast t rest with
    | some (b, a) => some (c :: b, a)
    | none => if c = t then some ([], rest) else none

/-- The spec's decomposition of a manifest line into
`(logicalPath, fileNameStem, fileType, physicalRelativePath)`:
name part = text before the first comma; fileType = text after its final
dot; fileNameStem = the run of non-separator characters between the last
`/` before that dot and the dot; logicalPath = everything up to and
including that last separator; physicalRelativePath = text between the
first comma and the next comma (or line end).  Lines missing any nonempty
component do not decompose (they are malformed for the spec). -/
def specDecompose (s : List Char) :
    Option (List Char × List Char × List Char × List Char) :=
  match splitFirst ',' s with
  | none => none
  | some (namePart, afterComma) =>
    match splitLast '.' namePart with
    | none => none
    | some (before, ftype) =>
      if ftype = [] then none
      else
        match splitLast '/' before with
        | some (ldir, stem) =>
          if stem = [] then none
          else if (spanComma afterComma).1 = [] then none
          else some (ldir ++ ['/'], stem, ftype, (spanComma afterComma).1)
        | none =>
          if before = [] then none
          else if (spanComma afterComma).1 = [] then none
          else some ([], before, ftype, (spanComma afterComma).1)

/-- The text after the first comma of a line (empty when there is none). -/
def afterFirstComma (s : List Char) : List Char :=
  match splitFirst ',' s with
  | some (_, a) => a
  | none => []

theorem splitFirst_eq (t : Char) (s b a : List Char)
    (h : splitFirst t s = some (b, a)) : s = b ++ t :: a ∧ t ∉ b := by
  induction s generalizing b with
  | nil => simp [splitFirst] at h
  | cons c rest ih =>
    by_cases hc : c = t
    · simp only [splitFirst, hc, if_true, Option.some.injEq, Prod.mk.injEq] at h
      subst hc
      rw [← h.1, ← h.2]
      simp
    · simp only [splitFirst, hc, if_false] at h
      cases hsp : splitFirst t rest with
      | none => rw [hsp] at h; simp at h
      | some p =>
        rw [hsp] at h
        simp only [Option.some.injEq, Prod.mk.injEq] at h
        obtain ⟨h1, h2⟩ := h
        subst h2
        subst h1
        obtain ⟨hb, hnb⟩ := ih p.1 (by rw [hsp])
        constructor
        · simp [hb]
        · intro hm
          rcases List.mem_cons.mp hm with hm | hm
          · exact hc hm.symm
          · exact hnb hm

theorem splitLast_none (t : Char) (s : List Char) (h : splitLast t s = none) :
    t ∉ s := by
  induction s with
  | nil => simp
  | cons c rest ih =>
    simp only [splitLast] at h
    cases hsp : splitLast t rest with
    | some p => rw [hsp] at h; simp at h
    | none =>
      rw [hsp] at h
      by_cases hc : c = t
      · simp [hc] at h
      · intro hm
        rcases List.mem_cons.mp hm with hm | hm
        · exact hc hm.symm
        · exact ih hsp hm

theorem splitLast_eq (t : Char) (s b a : List Char)
    (h : splitLast t s = some (b, a)) : s = b ++ t :: a ∧ t ∉ a := by
  induction s generalizing b a with
  | nil => simp [splitLast] at h
  | cons c rest ih =>
    simp only [splitLast] at h
    cases hsp : splitLast t rest with
    | none =>
      rw [hsp] at h
      by_cases hc : c = t
      · simp only [hc, if_true, Option.some.injEq, Prod.mk.injEq] at h
        obtain ⟨h1, h2⟩ := h
        subst h2
        subst h1
        subst hc
        exact ⟨by simp, splitLast_none c rest hsp⟩
      · simp [hc] at h
    | some p =>
      rw [hsp] at h
      simp only [Option.some.injEq, Prod.mk.injEq] at h
      obtain ⟨h1, h2⟩ := h
      subst h2
      subst h1
      obtain ⟨hb, hna⟩ := ih p.1 p.2 (by rw [hsp])
      exact ⟨by simp [hb], hna⟩

theorem spanComma_no_comma (s : List Char) (h : ',' ∉ s) : spanComma s = (s, []) := by
  induction s with
  | nil => rfl
  | cons c rest ih =>
    have hc : ¬ c = ',' := fun he => h (he ▸ List.mem_cons_self c rest)
    have h2 : ',' ∉ rest := fun hm => h (List.mem_cons_of_mem _ hm)
    simp [spanComma, hc, ih h2]

theorem spanComma_append_comma (A B : List Char) (h : ',' ∉ A) :
    spanComma (A ++ ',' :: B) = (A, ',' :: B) := by
  induction A with
  | nil => simp [spanComma]
  | cons c rest ih =>
    have hc : ¬ c = ',' := fun he => h (he ▸ List.mem_cons_self c rest)
    have h2 : ',' ∉ rest := fun hm => h (List.mem_cons_of_mem _ hm)
    simp [spanComma, hc, ih h2]

theorem slashRun_append_no_slash (A B : List Char) (h : '/' ∉ A) :
    slashRun (A ++ B) = A ++ slashRun B := by
  induction A with
  | nil => rfl
  | cons c rest ih =>
    have hc : ¬ c = '/' := fun he => h (he ▸ List.mem_cons_self c rest)
    have h2 : '/' ∉ rest := fun hm => h (List.mem_cons_of_mem _ hm)
    simp [slashRun, hc, ih h2]

theorem slashRun_append_mem (A B : List Char) (h : '/' ∈ A) :
    slashRun (A ++ B) = slashRun A := by
  induction A with
  | nil => cases h
  | cons c rest ih =>
    by_cases hc : c = '/'
    · simp [slashRun, hc]
    · have h2 : '/' ∈ rest := by
        rcases List.mem_cons.mp h with h1 | h1
        · exact absurd h1.symm hc
        · exact h1
      simp [slashRun, hc, ih h2]

theorem slashRun_length_le (s : List Char) : (slashRun s).length ≤ s.length := by
  induction s with
  | nil => simp [slashRun]
  | cons c rest ih =>
    by_cases hc : c = '/'
    · simp [slashRun, hc]
    · simp only [slashRun, hc, if_false, List.length_cons]
      omega

theorem get_append_len {α : Type} (A : List α) (c : α) (R : List α) :
    (A ++ c :: R).get? A.length = some c := by
  induction A with
  | nil => rfl
  | cons x xs ih => simpa using ih

theorem take_append_len {α : Type} (A B : List α) : (A ++ B).take A.length = A := by
  induction A with
  | nil => rfl
  | cons x xs ih => simpa using ih

theorem drop_append_len_succ {α : Type} (A : List α) (c : α) (R : List α) :
    (A ++ c :: R).drop (A.length + 1) = R := by
  induction A with
  | nil => rfl
  | cons x xs ih => simpa using ih

theorem tryTail_eq (T Q : List Char) (hT : T ≠ []) (hTc : ',' ∉ T)
    (hP : (spanComma Q).1 ≠ []) :
    tryTail (T ++ ',' :: Q) = some (T, (spanComma Q).1, (spanComma Q).2) := by
  unfold tryTail
  rw [spanComma_append_comma T Q hTc]
  simp [hT, hP]

theorem tryTail_none_no_comma (x : List Char) (h : ',' ∉ x) : tryTail x = none := by
  unfold tryTail
  rw [spanComma_no_comma x h]

theorem tryKs_none (s : List Char) (m : Nat)
    (h : ∀ j, 1 ≤ j → j ≤ m → s.get? j ≠ some '.') : tryKs s m = none := by
  induction m with
  | zero => rfl
  | succ j ih =>
    have hj := h (j + 1) (by omega) (by omega)
    simp only [tryKs, hj, if_false]
    exact ih fun i h1 h2 => h i h1 (by omega)

theorem tryKs_none_of_tryTail (s : List Char)
    (h : ∀ k, tryTail (s.drop k) = none) : ∀ m, tryKs s m = none := by
  intro m
  induction m with
  | zero => rfl
  | succ j ih =>
    by_cases hd : s.get? (j + 1) = some '.'
    · simp only [tryKs, hd, if_true, h (j + 2)]
      exact ih
    · simp only [tryKs, hd, if_false]
      exact ih

theorem tryKs_hit (s : List Char) (m target : Nat)
    (r : List Char × List Char × List Char)
    (h1 : 1 ≤ target) (h2 : target ≤ m)
    (hno : ∀ j, target < j → s.get? j ≠ some '.')
    (hdot : s.get? target = some '.')
    (htail : tryTail (s.drop (target + 1)) = some r) :
    tryKs s m = some (s.take target, r.1, r.2.1, r.2.2) := by
  induction m with
  | zero => omega
  | succ j ih =>
    by_cases he : target = j + 1
    · subst he
      simp only [tryKs, hdot, if_true, htail]
    · have hlt : target ≤ j := by omega
      have hj : s.get? (j + 1) ≠ some '.' := hno (j + 1) (by omega)
      simp only [tryKs, hj, if_false]
      exact ih hlt

theorem not_mem_of_get_drop (s x : List Char) (n j : Nat) (c : Char)
    (hd : s.drop n = x) (hm : c ∉ x) (hj : n ≤ j) : s.get? j ≠ some c := by
  intro hget
  have : (s.drop n).get? (j - n) = some c := by
    rw [List.get?_drop]
    have : n + (j - n) = j := by omega
    rw [this]
    exact hget
  rw [hd] at this
  exact hm (List.get?_mem this)

theorem tryHere_eq (S T Q : List Char)
    (hS : S ≠ []) (hSsl : '/' ∉ S)
    (hT : T ≠ []) (hTc : ',' ∉ T) (hTd : '.' ∉ T)
    (hQd : '.' ∉ Q) (hP : (spanComma Q).1 ≠ []) :
    tryHere (S ++ '.' :: (T ++ ',' :: Q))
      = some (S, T, (spanComma Q).1, (spanComma Q).2) := by
  have hrun2 : slashRun ('.' :: (T ++ ',' :: Q)) = '.' :: slashRun (T ++ ',' :: Q) := by
    simp only [slashRun]
    rw [if_neg (by decide : ¬ ('.' : Char) = '/')]
  have hrun : slashRun (S ++ '.' :: (T ++ ',' :: Q))
      = S ++ '.' :: slashRun (T ++ ',' :: Q) := by
    rw [slashRun_append_no_slash _ _ hSsl, hrun2]
  have hlen : (slashRun (S ++ '.' :: (T ++ ',' :: Q))).length
      = S.length + 1 + (slashRun (T ++ ',' :: Q)).length := by
    rw [hrun]; simp; omega
  have hdot : (S ++ '.' :: (T ++ ',' :: Q)).get? S.length = some '.' :=
    get_append_len S '.' _
  have hdrop : (S ++ '.' :: (T ++ ',' :: Q)).drop (S.length + 1) = T ++ ',' :: Q :=
    drop_append_len_succ S '.' _
  have hnodot : '.' ∉ T ++ ',' :: Q := by
    intro hm
    rcases List.mem_append.mp hm with hm | hm
    · exact hTd hm
    · rcases List.mem_cons.mp hm with hm | hm
      · exact absurd hm (by decide)
      · exact hQd hm
  have hno : ∀ j, S.length < j → (S ++ '.' :: (T ++ ',' :: Q)).get? j ≠ some '.' := by
    intro j hj
    exact not_mem_of_get_drop _ (T ++ ',' :: Q) (S.length + 1) j '.' hdrop hnodot (by omega)
  have htail : tryTail ((S ++ '.' :: (T ++ ',' :: Q)).drop (S.length + 1))
      = some (T, (spanComma Q).1, (spanComma Q).2) := by
    rw [hdrop]; exact tryTail_eq T Q hT hTc hP
  have hS1 : 1 ≤ S.length := List.length_pos.mpr hS
  unfold tryHere
  rw [hlen]
  rw [tryKs_hit _ _ S.length (T, (spanComma Q).1, (spanComma Q).2) hS1 (by omega)
    hno hdot htail]
  rw [take_append_len S ('.' :: (T ++ ',' :: Q))]

theorem tryHere_none_inside (L1 X : List Char) (hmem : '/' ∈ L1) (hdot : '.' ∉ L1) :
    tryHere (L1 ++ X) = none := by
  unfold tryHere
  apply tryKs_none
  intro j h1 h2
  rw [slashRun_append_mem L1 X hmem] at h2
  have hle := slashRun_length_le L1
  have hlt : j < L1.length := by omega
  rw [List.get?_append hlt]
  intro hget
  exact hdot (List.get?_mem hget)

theorem matchCore_cons (c : Char) (rest : List Char) :
    matchCore (c :: rest)
      = match tryHere (c :: rest) with
        | some (g2, g3, g4, g5) => some ([], g2, g3, g4, g5)
        | none =>
          match matchCore rest with
          | some (g1, g2, g3, g4, g5) => some (c :: g1, g2, g3, g4, g5)
          | none => none := rfl

theorem matchCore_eq_spec (L S T Q : List Char)
    (hS : S ≠ []) (hSsl : '/' ∉ S)
    (hT : T ≠ []) (hTc : ',' ∉ T) (hTd : '.' ∉ T)
    (hLd : '.' ∉ L) (hLe : L = [] ∨ ∃ L0, L = L0 ++ ['/'])
    (hQd : '.' ∉ Q) (hP : (spanComma Q).1 ≠ []) :
    matchCore (L ++ (S ++ '.' :: (T ++ ',' :: Q)))
      = some (L, S, T, (spanComma Q).1, (spanComma Q).2) := by
  revert hLd hLe
  induction L with
  | nil =>
    intro hLd hLe
    obtain ⟨c, S2, rfl⟩ := List.exists_cons_of_ne_nil hS
    have hth := tryHere_eq (c :: S2) T Q hS hSsl hT hTc hTd hQd hP
    have hth2 : tryHere (c :: (S2 ++ '.' :: (T ++ ',' :: Q)))
        = some (c :: S2, T, (spanComma Q).1, (spanComma Q).2) := by
      rw [← List.cons_append]; exact hth
    rw [List.nil_append, List.cons_append, matchCore_cons, hth2]
  | cons c L2 ih =>
    intro hLd hLe
    have hL0 : ∃ L0, c :: L2 = L0 ++ ['/'] := by
      rcases hLe with h | h
      · simp at h
      · exact h
    obtain ⟨L0, hL0⟩ := hL0
    have hmem : '/' ∈ c :: L2 := by rw [hL0]; simp
    have hLd2 : '.' ∉ L2 := fun hm => hLd (List.mem_cons_of_mem _ hm)
    have hLe2 : L2 = [] ∨ ∃ L0b, L2 = L0b ++ ['/'] := by
      cases L2 with
      | nil => left; rfl
      | cons d ds =>
        right
        cases L0 with
        | nil => simp at hL0
        | cons e es =>
          have hx : c :: (d :: ds) = e :: (es ++ ['/']) := by simpa using hL0
          exact ⟨es, ((List.cons.injEq _ _ _ _).mp hx).2⟩
    have ihh := ih hLd2 hLe2
    have hnone := tryHere_none_inside (c :: L2) (S ++ '.' :: (T ++ ',' :: Q)) hmem hLd
    have hnone2 : tryHere (c :: (L2 ++ (S ++ '.' :: (T ++ ',' :: Q)))) = none := by
      rw [← List.cons_append]; exact hnone
    rw [List.cons_append, matchCore_cons, hnone2, ihh]

theorem matchCore_none_no_dot (s : List Char) (h : '.' ∉ s) : matchCore s = none := by
  induction s with
  | nil => rfl
  | cons c rest ih =>
    have hth : tryHere (c :: rest) = none := by
      unfold tryHere
      apply tryKs_none
      intro j h1 h2 hget
      exact h (List.get?_mem hget)
    have h2 : '.' ∉ rest := fun hm => h (List.mem_cons_of_mem _ hm)
    simp only [matchCore]
    rw [hth, ih h2]

theorem matchCore_none_no_comma (s : List Char) (h : ',' ∉ s) : matchCore s = none := by
  induction s with
  | nil => rfl
  | cons c rest ih =>
    have hth : tryHere (c :: rest) = none := by
      unfold tryHere
      apply tryKs_none_of_tryTail
      intro k
      apply tryTail_none_no_comma
      intro hm
      exact h (List.drop_subset _ _ hm)
    have h2 : ',' ∉ rest := fun hm => h (List.mem_cons_of_mem _ hm)
    simp only [matchCore]
    rw [hth, ih h2]

theorem specDecompose_shape (s L S T P : List Char)
    (h : specDecompose s = some (L, S, T, P)) :
    ∃ Q, s = L ++ (S ++ '.' :: (T ++ ',' :: Q))
      ∧ ',' ∉ T ∧ '.' ∉ T ∧ '/' ∉ S ∧ S ≠ [] ∧ T ≠ []
      ∧ P = (spanComma Q).1 ∧ P ≠ []
      ∧ (L = [] ∨ ∃ L0, L = L0 ++ ['/'])
      ∧ afterFirstComma s = Q := by
  unfold specDecompose at h
  cases h1 : splitFirst ',' s with
  | none => rw [h1] at h; simp at h
  | some np =>
    obtain ⟨npA, npB⟩ := np
    rw [h1] at h
    simp only [] at h
    obtain ⟨hseq, hnc⟩ := splitFirst_eq ',' s npA npB h1
    cases h2 : splitLast '.' npA with
    | none => rw [h2] at h; simp at h
    | some bf =>
      obtain ⟨bfA, bfB⟩ := bf
      rw [h2] at h
      simp only [] at h
      obtain ⟨hbeq, hnd⟩ := splitLast_eq '.' npA bfA bfB h2
      by_cases h3 : bfB = []
      · rw [if_pos h3] at h; simp at h
      · rw [if_neg h3] at h
        cases h4 : splitLast '/' bfA with
        | some ls =>
          obtain ⟨lsA, lsB⟩ := ls
          rw [h4] at h
          simp only [] at h
          obtain ⟨hleq, hns⟩ := splitLast_eq '/' bfA lsA lsB h4
          by_cases h5 : lsB = []
          · rw [if_pos h5] at h; simp at h
          · rw [if_neg h5] at h
            by_cases h6 : (spanComma npB).1 = []
            · rw [if_pos h6] at h; simp at h
            · rw [if_neg h6] at h
              simp only [Option.some.injEq, Prod.mk.injEq] at h
              obtain ⟨hL, hS, hT, hP⟩ := h
              subst hL
              subst hS
              subst hT
              subst hP
              refine ⟨npB, ?_, ?_, hnd, hns, h5, h3, rfl, h6, ?_, ?_⟩
              · rw [hseq, hbeq, hleq]; simp
              · intro hm
                exact hnc (by
                  rw [hbeq]
                  exact List.mem_append_right _ (List.mem_cons_of_mem _ hm))
              · right; exact ⟨lsA, rfl⟩
              · unfold afterFirstComma; rw [h1]
        | none =>
          rw [h4] at h
          have hns := splitLast_none '/' bfA h4
          by_cases h5 : bfA = []
          · rw [if_pos h5] at h; simp at h
          · rw [if_neg h5] at h
            by_cases h6 : (spanComma npB).1 = []
            · rw [if_pos h6] at h; simp at h
            · rw [if_neg h6] at h
              simp only [Option.some.injEq, Prod.mk.injEq] at h
              obtain ⟨hL, hS, hT, hP⟩ := h
              subst hL
              subst hS
              subst hT
              subst hP
              refine ⟨npB, ?_, ?_, hnd, hns, h5, h3, rfl, h6, Or.inl rfl, ?_⟩
              · rw [hseq, hbeq]; simp
              · intro hm
                exact hnc (by
                  rw [hbeq]
                  exact List.mem_append_right _ (List.mem_cons_of_mem _ hm))
              · unfold afterFirstComma; rw [h1]

/-- C2 counterexample: the claim says the parser extracts exactly the
spec-shaped tuple from every well-formed line and produces nothing (and
counts nothing) for malformed ones.  On the well-formed line `a.b,c.d,e`
(logicalPath empty, stem `a`, type `b`, physical path `c.d`, trailing
`,e`), the regex instead captures filename `a.b,c` and filetype `d`,
because the greedy group 2 can run across the comma to a later dot.  And on
`a,b.c,d`, which is malformed for the spec (no dot before the first comma,
hence no trailing `.type` in the name part), the regex does match, produces
an entry, and `totalProcessed` is incremented. -/
theorem c2_counterexample :
    specDecompose ("a.b,c.d,e".data)
      = some ([], "a".data, "b".data, "c.d".data) ∧
    parseLine ("a.b,c.d,e".data)
      = some ⟨[], "a.b,c".data, "d".data, "e".data⟩ ∧
    parseLine ("a.b,c.d,e".data)
      ≠ some ⟨[], "a".data, "b".data, "c.d".data⟩ ∧
    specDecompose ("a,b.c,d".data) = none ∧
    parseLine ("a,b.c,d".data)
      = some ⟨[], "a,b".data, "c".data, "d".data⟩ ∧
    SCget (processLine (fun _ => false) (fun _ st => st) (fun _ => false)
        ⟨[], 0⟩ ("a,b.c,d".data)).stats "totalProcessed" = 1 := by
  refine ⟨by decide, by decide, by decide, by decide, by decide, by decide⟩

/-- C2 amended: (1) for every manifest line of the spec's well-formed shape
in which, additionally, the logical path contains no dot and the text after
the first comma contains no dot, the parser extracts exactly the tuple
`(logicalPath, fileName, fileType, physicalRelativePath)` of the spec's
decomposition; (2) every line with no comma at all, or no dot at all,
produces no entry and leaves the scan state (counters included) untouched.
(On well-formed lines with a dot in the logical path or after the first
comma the regex can capture different substrings, and lines that are
malformed for the spec while containing some dot before a comma elsewhere
can still match, as the counterexample shows.) -/
theorem c2_amended :
    (∀ (s L S T P : List Char), specDecompose s = some (L, S, T, P) →
      '.' ∉ L → '.' ∉ afterFirstComma s →
      parseLine s = some ⟨L, S, T, P⟩) ∧
    (∀ (s : List Char) (exF : List Char → Bool)
        (handler : IndexEntry → ScanState → ScanState)
        (hthrows : IndexEntry → Bool) (st : ScanState),
      (',' ∉ s ∨ '.' ∉ s) →
      parseLine s = none ∧ processLine exF handler hthrows st s = st) := by
  constructor
  · intro s L S T P h hLd hQd
    obtain ⟨Q, hs, hTc, hTd, hSsl, hS, hT, hPeq, hPne, hLe, hQeq⟩ :=
      specDecompose_shape s L S T P h
    have hQd2 : '.' ∉ Q := by rw [← hQeq]; exact hQd
    have hPne2 : (spanComma Q).1 ≠ [] := hPeq ▸ hPne
    have hmc := matchCore_eq_spec L S T Q hS hSsl hT hTc hTd hLd hLe hQd2 hPne2
    rw [hs]
    simp [parseLine, hmc, hPeq]
  · intro s exF handler hthrows st hcase
    have hnone : matchCore s = none := by
      rcases hcase with h | h
      · exact matchCore_none_no_comma s h
      · exact matchCore_none_no_dot s h
    exact ⟨by simp [parseLine, hnone], by simp [processLine, parseLine, hnone]⟩

/-- C2 witness: part (1) at the spec's own end-to-end line
`res:fsd/types.fsdbinary,stillness/ResFiles/ab/cd1234` (logical path and
physical part dot-free), and part (2) at the dotless, commaless line
`nomatch`. -/
theorem c2_witness :
    parseLine ("res:fsd/types.fsdbinary,stillness/ResFiles/ab/cd1234".data)
      = some ⟨"res:fsd/".data, "types".data, "fsdbinary".data,
          "stillness/ResFiles/ab/cd1234".data⟩ ∧
    (parseLine ("nomatch".data) = none ∧
      processLine (fun _ => true) (fun _ st => st) (fun _ => true)
        ⟨[], 0⟩ ("nomatch".data) = ⟨[], 0⟩) :=
  ⟨c2_amended.1 ("res:fsd/types.fsdbinary,stillness/ResFiles/ab/cd1234".data)
      ("res:fsd/".data) ("types".data) ("fsdbinary".data)
      ("stillness/ResFiles/ab/cd1234".data) (by decide) (by decide) (by decide),
    c2_amended.2 ("nomatch".data) (fun _ => true) (fun _ st => st) (fun _ => true)
      ⟨[], 0⟩ (Or.inl (by decide))⟩

/-! ## Blueprint bill-of-materials builder
(src/lib/processors/blueprints.js, lines 80–134)

The loop over `Object.entries(blueprints)` is modelled as a fold over a
list of `(blueprintId, blueprint)` pairs (JS object keys are unique, which
theorems assume as `Nodup` where needed).  `typeNames` is the
id → name table; `typeNames[x] || fallback` falls back on both an absent
and an empty name. -/

/-- One `{ typeID, quantity }` record of a materials/products array. -/
structure BPMat where
  typeID : Nat
  quantity : Nat
deriving DecidableEq

structure Manufacturing where
  materials : Option (List BPMat)
  products : Option (List BPMat)
deriving DecidableEq

structure BPActivities where
  manufacturing : Option Manufacturing
deriving DecidableEq

structure Blueprint where
  activities : Option BPActivities
deriving DecidableEq

/-- The guard `blueprint.activities && blueprint.activities.manufacturing`. -/
def manufOf (bp : Blueprint) : Option Manufacturing :=
  match bp.activities with
  | some a => a.manufacturing
  | none => none

/-- `typeNames[id] || fallback`: an absent or empty name falls back. -/
def typeNameOr (tn : List (Nat × String)) (id : Nat) (fb : String) : String :=
  match lookupA tn id with
  | some s => if s = "" then fb else s
  | none => fb

structure ResolvedMat where
  typeID : Nat
  name : String
  quantity : Nat
deriving DecidableEq

/-- One entry of `blueprintToMaterials`. -/
structure FwdEntry where
  blueprintName : String
  materials : List ResolvedMat
  products : List ResolvedMat
deriving DecidableEq

/-- One element of a `usedInBlueprints` array. -/
structure Usage where
  blueprintID : Nat
  blueprintName : String
  quantityRequired : Nat
deriving DecidableEq

/-- One entry of `materialToBlueprints`. -/
structure RevEntry where
  materialName : String
  usedInBlueprints : List Usage
deriving DecidableEq

/-- `materialToBlueprints[id]` update: create the entry (with its
`materialName` fixed at creation) when absent, then push the usage. -/
def pushUsage (rev : List (Nat × RevEntry)) (mid : Nat) (name : String)
    (u : Usage) : List (Nat × RevEntry) :=
  match rev with
  | [] => [(mid, ⟨name, [u]⟩)]
  | (k, e) :: rest =>
    if k = mid then (k, { e with usedInBlueprints := e.usedInBlueprints ++ [u] }) :: rest
    else (k, e) :: pushUsage rest mid name u

/-- `new Set()` / `Set.add` on the id sets. -/
def insertNew (l : List Nat) (x : Nat) : List Nat := if x ∈ l then l else l ++ [x]

/-- The mutable state of `runBlueprintAnalysis`'s processing loop. -/
structure BPState where
  materialToBlueprints : List (Nat × RevEntry)
  blueprintToMaterials : List (Nat × FwdEntry)
  allMaterialIds : List Nat
  allBlueprintIds : List Nat
  stats : SC
deriving DecidableEq

/-- `material => ({ typeID, name: typeNames[id] || 'Type <id>', quantity })`. -/
def resolveMat (tn : List (Nat × String)) (m : BPMat) : ResolvedMat :=
  ⟨m.typeID, typeNameOr tn m.typeID ("Type " ++ toString m.typeID), m.quantity⟩

/-- One iteration of the inner `for (const material of materials)` loop:
record the material id and push the reverse usage. -/
def bpMatStep (tn : List (Nat × String)) (bid : Nat)
    (st : BPState) (mat : BPMat) : BPState :=
  { st with
    allMaterialIds := insertNew st.allMaterialIds mat.typeID,
    materialToBlueprints := pushUsage st.materialToBlueprints mat.typeID
      (typeNameOr tn mat.typeID ("Type " ++ toString mat.typeID))
      ⟨bid, typeNameOr tn bid ("Blueprint " ++ toString bid), mat.quantity⟩ }

/-- One iteration of the outer loop over `Object.entries(blueprints)`. -/
def bpProcessOne (tn : List (Nat × String)) (st : BPState)
    (p : Nat × Blueprint) : BPState :=
  let st1 : BPState := { st with
    allBlueprintIds := insertNew st.allBlueprintIds p.1,
    stats := SCincrement st.stats "totalBlueprints" 1 }
  match manufOf p.2 with
  | none => st1
  | some m =>
    let st2 : BPState := { st1 with
      stats := SCincrement st1.stats "manufacturingBlueprints" 1 }
    let st3 : BPState := { st2 with
      blueprintToMaterials := setA st2.blueprintToMaterials p.1
        ⟨typeNameOr tn p.1 ("Blueprint " ++ toString p.1),
         (m.materials.getD []).map (resolveMat tn),
         (m.products.getD []).map (resolveMat tn)⟩ }
    (m.materials.getD []).foldl (bpMatStep tn p.1) st3

/-- The whole blueprint processing loop, from empty maps and a fresh
`StatsCollector`. -/
def runBlueprintAnalysis (tn : List (Nat × String))
    (bps : List (Nat × Blueprint)) : BPState :=
  bps.foldl (bpProcessOne tn) ⟨[], [], [], [], []⟩

/-- No usage in the reverse map names `bid` as the consuming blueprint. -/
def noConsumer (rev : List (Nat × RevEntry)) (bid : Nat) : Prop :=
  ∀ mid e u, (mid, e) ∈ rev → u ∈ e.usedInBlueprints → u.blueprintID ≠ bid

theorem matfold_fwd (tn : List (Nat × String)) (bid : Nat) (mats : List BPMat)
    (st : BPState) :
    (mats.foldl (bpMatStep tn bid) st).blueprintToMaterials
      = st.blueprintToMaterials := by
  induction mats generalizing st with
  | nil => rfl
  | cons m rest ih => simpa [bpMatStep] using ih _

theorem matfold_stats (tn : List (Nat × String)) (bid : Nat) (mats : List BPMat)
    (st : BPState) :
    (mats.foldl (bpMatStep tn bid) st).stats = st.stats := by
  induction mats generalizing st with
  | nil => rfl
  | cons m rest ih => simpa [bpMatStep] using ih _

theorem bp_step_total (tn : List (Nat × String)) (st : BPState)
    (p : Nat × Blueprint) :
    SCget (bpProcessOne tn st p).stats "totalBlueprints"
      = SCget st.stats "totalBlueprints" + 1 := by
  unfold bpProcessOne
  cases hm : manufOf p.2 with
  | none => simp [SCget_increment_self]
  | some m =>
    simp only [matfold_stats]
    rw [SCget_increment_ne _ _ _ _ (by decide :
      ("totalBlueprints" : String) ≠ "manufacturingBlueprints")]
    simp [SCget_increment_self]

theorem bp_run_total (tn : List (Nat × String)) (bps : List (Nat × Blueprint))
    (st : BPState) :
    SCget (bps.foldl (bpProcessOne tn) st).stats "totalBlueprints"
      = SCget st.stats "totalBlueprints" + (bps.length : Int) := by
  induction bps generalizing st with
  | nil => simp
  | cons p rest ih =>
    simp only [List.foldl_cons, List.length_cons]
    rw [ih, bp_step_total]
    push_cast
    ring

theorem bp_step_fwd_other (tn : List (Nat × String)) (st : BPState)
    (p : Nat × Blueprint) (bid : Nat) (h : p.1 ≠ bid) :
    lookupA (bpProcessOne tn st p).blueprintToMaterials bid
      = lookupA st.blueprintToMaterials bid := by
  unfold bpProcessOne
  cases hm : manufOf p.2 with
  | none => rfl
  | some m =>
    simp only [matfold_fwd]
    exact lookupA_setA_ne _ _ _ _ (fun he => h he.symm)

theorem bp_run_fwd_other (tn : List (Nat × String)) (bps : List (Nat × Blueprint))
    (st : BPState) (bid : Nat) (h : ∀ q ∈ bps, q.1 ≠ bid) :
    lookupA (bps.foldl (bpProcessOne tn) st).blueprintToMaterials bid
      = lookupA st.blueprintToMaterials bid := by
  induction bps generalizing st with
  | nil => rfl
  | cons p rest ih =>
    simp only [List.foldl_cons]
    rw [ih _ fun q hq => h q (List.mem_cons_of_mem _ hq)]
    exact bp_step_fwd_other tn st p bid (h p (List.mem_cons_self _ _))

theorem pushUsage_usages (mid : Nat) (name : String) (u v : Usage) :
    ∀ (rev : List (Nat × RevEntry)) (p : Nat × RevEntry),
      p ∈ pushUsage rev mid name u → v ∈ p.2.usedInBlueprints →
      (∃ e0 : RevEntry, (p.1, e0) ∈ rev ∧ v ∈ e0.usedInBlueprints) ∨ v = u := by
  intro rev
  induction rev with
  | nil =>
    intro p hp hv
    simp only [pushUsage, List.mem_singleton] at hp
    subst hp
    simp only [List.mem_singleton] at hv
    right; exact hv
  | cons q rest ih =>
    intro p hp hv
    obtain ⟨k, e⟩ := q
    by_cases hk : k = mid
    · subst hk
      simp only [pushUsage, List.mem_cons, if_true, eq_self_iff_true] at hp
      rcases hp with hp | hp
      · subst hp
        simp only [List.mem_append, List.mem_singleton] at hv
        rcases hv with hv | hv
        · left; exact ⟨e, List.mem_cons_self _ _, hv⟩
        · right; exact hv
      · left; exact ⟨p.2, List.mem_cons_of_mem _ (by simpa using hp), hv⟩
    · simp only [pushUsage, hk, if_false, List.mem_cons] at hp
      rcases hp with hp | hp
      · subst hp
        left; exact ⟨e, List.mem_cons_self _ _, hv⟩
      · rcases ih p hp hv with ⟨e0, he0, hve⟩ | hvu
        · left; exact ⟨e0, List.mem_cons_of_mem _ he0, hve⟩
        · right; exact hvu

theorem matfold_noConsumer (tn : List (Nat × String)) (pid : Nat)
    (mats : List BPMat) (st : BPState) (bid : Nat) (hne : pid ≠ bid)
    (hin : noConsumer st.materialToBlueprints bid) :
    noConsumer ((mats.foldl (bpMatStep tn pid) st).materialToBlueprints) bid := by
  induction mats generalizing st with
  | nil => exact hin
  | cons m rest ih =>
    simp only [List.foldl_cons]
    apply ih
    intro mid e u hme hu
    rcases pushUsage_usages m.typeID _ _ u st.materialToBlueprints (mid, e) hme hu with
      ⟨e0, he0, hue⟩ | hu2
    · exact hin mid e0 u he0 hue
    · subst hu2; exact hne

theorem bp_step_noConsumer (tn : List (Nat × String)) (st : BPState)
    (p : Nat × Blueprint) (bid : Nat) (hne : p.1 ≠ bid)
    (hin : noConsumer st.materialToBlueprints bid) :
    noConsumer (bpProcessOne tn st p).materialToBlueprints bid := by
  unfold bpProcessOne
  cases hm : manufOf p.2 with
  | none => exact hin
  | some m => exact matfold_noConsumer tn p.1 _ _ bid hne hin

theorem bp_run_noConsumer (tn : List (Nat × String)) (bps : List (Nat × Blueprint))
    (st : BPState) (bid : Nat) (h : ∀ q ∈ bps, q.1 ≠ bid)
    (hin : noConsumer st.materialToBlueprints bid) :
    noConsumer ((bps.foldl (bpProcessOne tn) st).materialToBlueprints) bid := by
  induction bps generalizing st with
  | nil => exact hin
  | cons p rest ih =>
    simp only [List.foldl_cons]
    exact ih _ (fun q hq => h q (List.mem_cons_of_mem _ hq))
      (bp_step_noConsumer tn st p bid (h p (List.mem_cons_self _ _)) hin)

theorem bp_step_fwd_self (tn : List (Nat × String)) (st : BPState)
    (bid : Nat) (bp : Blueprint) (m : Manufacturing) (h : manufOf bp = some m) :
    lookupA (bpProcessOne tn st (bid, bp)).blueprintToMaterials bid
      = some ⟨typeNameOr tn bid ("Blueprint " ++ toString bid),
          (m.materials.getD []).map (resolveMat tn),
          (m.products.getD []).map (resolveMat tn)⟩ := by
  unfold bpProcessOne
  simp only [h, matfold_fwd]
  exact lookupA_setA_self _ _ _

theorem bp_step_fwd_none_manuf (tn : List (Nat × String)) (st : BPState)
    (bid : Nat) (bp : Blueprint) (h : manufOf bp = none) :
    (bpProcessOne tn st (bid, bp)).blueprintToMaterials
      = st.blueprintToMaterials := by
  unfold bpProcessOne
  simp only [h]

theorem nodup_split_keys {β : Type} (pre post : List (Nat × β)) (bid : Nat) (b : β)
    (hnd : ((pre ++ (bid, b) :: post).map Prod.fst).Nodup) :
    (∀ q ∈ pre, q.1 ≠ bid) ∧ (∀ q ∈ post, q.1 ≠ bid) := by
  rw [List.map_append, List.map_cons] at hnd
  rw [List.nodup_append] at hnd
  obtain ⟨h1, h2, h3⟩ := hnd
  constructor
  · intro q hq he
    exact h3 (List.mem_map.mpr ⟨q, hq, he⟩) (List.mem_cons_self _ _)
  · intro q hq he
    rcases List.nodup_cons.mp h2 with ⟨hb, _⟩
    exact hb (he ▸ List.mem_map.mpr ⟨q, hq, rfl⟩)

/-- C5: for every blueprint input table (with the unique keys of a JS
object) and type-name table: `totalBlueprints` counts every record; a
record without a manufacturing activity appears neither in the forward map
nor as a consumer in any reverse entry; and a record with one appears in
the forward map with its name and each material's and product's name
resolved from the table, falling back to `"Blueprint <id>"` / `"Type <id>"`
when unnamed. -/
theorem c5_bom (tn : List (Nat × String)) (bps : List (Nat × Blueprint))
    (hnd : (bps.map Prod.fst).Nodup) :
    SCget (runBlueprintAnalysis tn bps).stats "totalBlueprints" = (bps.length : Int) ∧
    (∀ bid bp, (bid, bp) ∈ bps → manufOf bp = none →
      lookupA (runBlueprintAnalysis tn bps).blueprintToMaterials bid = none ∧
      noConsumer (runBlueprintAnalysis tn bps).materialToBlueprints bid) ∧
    (∀ bid bp m, (bid, bp) ∈ bps → manufOf bp = some m →
      lookupA (runBlueprintAnalysis tn bps).blueprintToMaterials bid
        = some ⟨typeNameOr tn bid ("Blueprint " ++ toString bid),
            (m.materials.getD []).map (resolveMat tn),
            (m.products.getD []).map (resolveMat tn)⟩) := by
  refine ⟨?_, ?_, ?_⟩
  · unfold runBlueprintAnalysis
    rw [bp_run_total]
    simp [SCget, lookupA]
  · intro bid bp hmem hm
    obtain ⟨pre, post, rfl⟩ := List.append_of_mem hmem
    obtain ⟨hpre, hpost⟩ := nodup_split_keys pre post bid bp hnd
    unfold runBlueprintAnalysis
    rw [List.foldl_append, List.foldl_cons]
    constructor
    · rw [bp_run_fwd_other tn post _ bid hpost]
      rw [bp_step_fwd_none_manuf tn _ bid bp hm]
      rw [bp_run_fwd_other tn pre _ bid hpre]
      rfl
    · apply bp_run_noConsumer tn post _ bid hpost
      have hrev : (bpProcessOne tn (pre.foldl (bpProcessOne tn) ⟨[], [], [], [], []⟩)
          (bid, bp)).materialToBlueprints
          = (pre.foldl (bpProcessOne tn) ⟨[], [], [], [], []⟩).materialToBlueprints := by
        unfold bpProcessOne
        simp only [hm]
      rw [hrev]
      apply bp_run_noConsumer tn pre _ bid hpre
      intro mid e u hme hu
      simp at hme
  · intro bid bp m hmem hm
    obtain ⟨pre, post, rfl⟩ := List.append_of_mem hmem
    obtain ⟨hpre, hpost⟩ := nodup_split_keys pre post bid bp hnd
    unfold runBlueprintAnalysis
    rw [List.foldl_append, List.foldl_cons]
    rw [bp_run_fwd_other tn post _ bid hpost]
    exact bp_step_fwd_self tn _ bid bp m hm

/-- C5 witness: a two-record table (blueprint `500001` manufacturing
`10 × Tritanium` into itself, and blueprint `7` with no activities) against
the name table `{34 : Tritanium}`. -/
theorem c5_witness :
    SCget (runBlueprintAnalysis [(34, "Tritanium")]
        [(500001, ⟨some ⟨some ⟨some [⟨34, 10⟩], some [⟨500001, 1⟩]⟩⟩⟩),
         (7, ⟨none⟩)]).stats "totalBlueprints" = (2 : Int) ∧
    lookupA (runBlueprintAnalysis [(34, "Tritanium")]
        [(500001, ⟨some ⟨some ⟨some [⟨34, 10⟩], some [⟨500001, 1⟩]⟩⟩⟩),
         (7, ⟨none⟩)]).blueprintToMaterials 7 = none ∧
    lookupA (runBlueprintAnalysis [(34, "Tritanium")]
        [(500001, ⟨some ⟨some ⟨some [⟨34, 10⟩], some [⟨500001, 1⟩]⟩⟩⟩),
         (7, ⟨none⟩)]).blueprintToMaterials 500001
      = some ⟨typeNameOr [(34, "Tritanium")] 500001 ("Blueprint " ++ toString 500001),
          [⟨34, 10⟩].map (resolveMat [(34, "Tritanium")]),
          [⟨500001, 1⟩].map (resolveMat [(34, "Tritanium")])⟩ := by
  refine ⟨?_, ?_, ?_⟩
  · have := (c5_bom [(34, "Tritanium")]
      [(500001, ⟨some ⟨some ⟨some [⟨34, 10⟩], some [⟨500001, 1⟩]⟩⟩⟩),
       (7, ⟨none⟩)] (by decide)).1
    simpa using this
  · exact ((c5_bom [(34, "Tritanium")]
      [(500001, ⟨some ⟨some ⟨some [⟨34, 10⟩], some [⟨500001, 1⟩]⟩⟩⟩),
       (7, ⟨none⟩)] (by decide)).2.1 7 ⟨none⟩ (by decide) rfl).1
  · exact (c5_bom [(34, "Tritanium")]
      [(500001, ⟨some ⟨some ⟨some [⟨34, 10⟩], some [⟨500001, 1⟩]⟩⟩⟩),
       (7, ⟨none⟩)] (by decide)).2.2 500001
        ⟨some ⟨some ⟨some [⟨34, 10⟩], some [⟨500001, 1⟩]⟩⟩⟩
        ⟨some [⟨34, 10⟩], some [⟨500001, 1⟩]⟩ (by decide) rfl

/-! ## Type-name extraction (src/lib/processors/type-names.js, lines 43–74)

The loop over `Object.entries(types)` builds three maps: `typeNames`
(id → name, only non-empty names), `typesByGroup` (groupID → list of
records, every record regardless of name), and `publishedTypes`
(id → name, only `published === 1` *and* non-empty name).  The
`basePrice`/`volume` pass-through fields of the group records are
floating-point copies not referenced by any claim and are omitted from the
record model. -/

structure TypeData where
  typeNameID : Option String
  groupID : Nat
  published : Option Int
deriving DecidableEq

/-- One record pushed onto `typesByGroup[groupId]`. -/
structure GroupEntry where
  typeID : Nat
  name : String
  published : Option Int
deriving DecidableEq

structure TNState where
  typeNames : List (Nat × String)
  typesByGroup : List (Nat × List GroupEntry)
  publishedTypes : List (Nat × String)
  stats : SC
deriving DecidableEq

/-- `name || fallback` on the raw `typeNameID` field. -/
def jsNameOr (n : Option String) (fb : String) : String :=
  match n with
  | some s => if s = "" then fb else s
  | none => fb

/-- `typesByGroup[gid]` update: create the (empty) bucket when absent, then
push the entry. -/
def appendGroup (g : List (Nat × List GroupEntry)) (gid : Nat) (e : GroupEntry) :
    List (Nat × List GroupEntry) :=
  match g with
  | [] => [(gid, [e])]
  | (k, l) :: rest =>
    if k = gid then (k, l ++ [e]) :: rest else (k, l) :: appendGroup rest gid e

/-- Section `if (name && name !== '')` of the loop body. -/
def typeNamePart (st : TNState) (p : Nat × TypeData) : TNState :=
  match p.2.typeNameID with
  | some s =>
    if s = "" then st
    else { st with typeNames := setA st.typeNames p.1 s,
                   stats := SCincrement st.stats "namedTypes" 1 }
  | none => st

/-- Section grouping by `groupID` (`name || 'Type <id>'` for the record). -/
def typeGroupPart (st : TNState) (p : Nat × TypeData) : TNState :=
  { st with
    typesByGroup :=
      appendGroup st.typesByGroup p.2.groupID
        ⟨p.1, jsNameOr p.2.typeNameID ("Type " ++ toString p.1), p.2.published⟩ }

/-- Section `if (published === 1 && name && name !== '')`. -/
def typePubPart (st : TNState) (p : Nat × TypeData) : TNState :=
  if p.2.published = some 1 then
    match p.2.typeNameID with
    | some s =>
      if s = "" then st
      else { st with publishedTypes := setA st.publishedTypes p.1 s,
                     stats := SCincrement st.stats "publishedTypes" 1 }
    | none => st
  else st

/-- One iteration of the `for (const [typeId, typeData] of
Object.entries(types))` loop. -/
def typeStep (st : TNState) (p : Nat × TypeData) : TNState :=
  typePubPart
    (typeGroupPart
      (typeNamePart { st with stats := SCincrement st.stats "totalTypes" 1 } p) p) p

/-- The whole extraction loop from empty maps and a fresh collector. -/
def runTypeNameExtraction (types : List (Nat × TypeData)) : TNState :=
  types.foldl typeStep ⟨[], [], [], []⟩

theorem typeNamePart_pub (st : TNState) (p : Nat × TypeData) :
    (typeNamePart st p).publishedTypes = st.publishedTypes := by
  unfold typeNamePart
  cases p.2.typeNameID with
  | none => rfl
  | some s =>
    by_cases hs : s = "" <;> simp [hs]

theorem typeNamePart_group (st : TNState) (p : Nat × TypeData) :
    (typeNamePart st p).typesByGroup = st.typesByGroup := by
  unfold typeNamePart
  cases p.2.typeNameID with
  | none => rfl
  | some s =>
    by_cases hs : s = "" <;> simp [hs]

theorem typePubPart_group (st : TNState) (p : Nat × TypeData) :
    (typePubPart st p).typesByGroup = st.typesByGroup := by
  unfold typePubPart
  by_cases hp : p.2.published = some 1
  · simp only [hp, if_true]
    cases p.2.typeNameID with
    | none => rfl
    | some s => by_cases hs : s = "" <;> simp [hs]
  · simp [hp]

theorem typeStep_pub (st : TNState) (p : Nat × TypeData) :
    (typeStep st p).publishedTypes
      = if p.2.published = some 1 then
          (match p.2.typeNameID with
           | some s => if s = "" then st.publishedTypes
                       else setA st.publishedTypes p.1 s
           | none => st.publishedTypes)
        else st.publishedTypes := by
  unfold typeStep typePubPart
  by_cases hp : p.2.published = some 1
  · simp only [hp, if_true]
    cases hn : p.2.typeNameID with
    | none => simp [typeGroupPart, typeNamePart_pub]
    | some s =>
      by_cases hs : s = ""
      · simp [hs, typeGroupPart, typeNamePart_pub]
      · simp [hs, typeGroupPart, typeNamePart_pub]
  · simp [hp, typeGroupPart, typeNamePart_pub]

theorem typeStep_pub_other (st : TNState) (p : Nat × TypeData) (id : Nat)
    (h : p.1 ≠ id) :
    lookupA (typeStep st p).publishedTypes id = lookupA st.publishedTypes id := by
  rw [typeStep_pub]
  by_cases hp : p.2.published = some 1
  · simp only [hp, if_true]
    cases p.2.typeNameID with
    | none => rfl
    | some s =>
      by_cases hs : s = ""
      · simp [hs]
      · simp only [hs, if_false]
        exact lookupA_setA_ne _ _ _ _ (fun he => h he.symm)
  · simp [hp]

theorem run_pub_other (types : List (Nat × TypeData)) (st : TNState) (id : Nat)
    (h : ∀ q ∈ types, q.1 ≠ id) :
    lookupA (types.foldl typeStep st).publishedTypes id
      = lookupA st.publishedTypes id := by
  induction types generalizing st with
  | nil => rfl
  | cons p rest ih =>
    simp only [List.foldl_cons]
    rw [ih _ fun q hq => h q (List.mem_cons_of_mem _ hq)]
    exact typeStep_pub_other st p id (h p (List.mem_cons_self _ _))

theorem lookupA_appendGroup_self (g : List (Nat × List GroupEntry)) (gid : Nat)
    (e : GroupEntry) :
    lookupA (appendGroup g gid e) gid = some (((lookupA g gid).getD []) ++ [e]) := by
  induction g with
  | nil => simp [appendGroup, lookupA]
  | cons q rest ih =>
    obtain ⟨k, l⟩ := q
    by_cases hk : k = gid
    · subst hk
      simp [appendGroup, lookupA]
    · simp [appendGroup, hk, lookupA, ih]

theorem lookupA_appendGroup_ne (g : List (Nat × List GroupEntry)) (gid gid2 : Nat)
    (e : GroupEntry) (h : gid ≠ gid2) :
    lookupA (appendGroup g gid2 e) gid = lookupA g gid := by
  have hgg : ¬ gid2 = gid := fun he => h he.symm
  induction g with
  | nil => simp [appendGroup, lookupA, hgg]
  | cons q rest ih =>
    obtain ⟨k, l⟩ := q
    by_cases hk : k = gid2
    · subst hk
      simp [appendGroup, lookupA, hgg, ih]
    · simp [appendGroup, hk, lookupA, ih]

/-- Membership of a record in some bucket survives any later append. -/
theorem appendGroup_pres (g : List (Nat × List GroupEntry)) (gid gid2 : Nat)
    (e2 ge : GroupEntry) (l : List GroupEntry)
    (h : lookupA g gid = some l) (hm : ge ∈ l) :
    ∃ l2, lookupA (appendGroup g gid2 e2) gid = some l2 ∧ ge ∈ l2 := by
  by_cases hg : gid = gid2
  · subst hg
    refine ⟨((lookupA g gid).getD []) ++ [e2], lookupA_appendGroup_self g gid e2, ?_⟩
    rw [h]
    exact List.mem_append_left _ hm
  · exact ⟨l, by rw [lookupA_appendGroup_ne g gid gid2 e2 hg]; exact h, hm⟩

theorem typeStep_group (st : TNState) (p : Nat × TypeData) :
    (typeStep st p).typesByGroup
      = appendGroup st.typesByGroup p.2.groupID
          ⟨p.1, jsNameOr p.2.typeNameID ("Type " ++ toString p.1), p.2.published⟩ := by
  unfold typeStep
  rw [typePubPart_group]
  unfold typeGroupPart
  rw [typeNamePart_group]

theorem typeStep_group_pres (st : TNState) (p : Nat × TypeData) (gid : Nat)
    (ge : GroupEntry) (l : List GroupEntry)
    (h : lookupA st.typesByGroup gid = some l) (hm : ge ∈ l) :
    ∃ l2, lookupA (typeStep st p).typesByGroup gid = some l2 ∧ ge ∈ l2 := by
  rw [typeStep_group]
  exact appendGroup_pres _ gid p.2.groupID _ ge l h hm

theorem run_group_pres (types : List (Nat × TypeData)) (st : TNState) (gid : Nat)
    (ge : GroupEntry) (l : List GroupEntry)
    (h : lookupA st.typesByGroup gid = some l) (hm : ge ∈ l) :
    ∃ l2, lookupA (types.foldl typeStep st).typesByGroup gid = some l2 ∧ ge ∈ l2 := by
  induction types generalizing st l with
  | nil => exact ⟨l, h, hm⟩
  | cons p rest ih =>
    simp only [List.foldl_cons]
    obtain ⟨l2, h2, hm2⟩ := typeStep_group_pres st p gid ge l h hm
    exact ih _ l2 h2 hm2

theorem typeStep_group_self (st : TNState) (p : Nat × TypeData) :
    ∃ l2, lookupA (typeStep st p).typesByGroup p.2.groupID = some l2 ∧
      (⟨p.1, jsNameOr p.2.typeNameID ("Type " ++ toString p.1), p.2.published⟩
        : GroupEntry) ∈ l2 := by
  rw [typeStep_group]
  refine ⟨_, lookupA_appendGroup_self _ _ _, ?_⟩
  exact List.mem_append_right _ (List.mem_singleton.mpr rfl)

/-- C7 counterexample: the claim says a record's id is in the
published-only subset if and only if its `published` field equals `1`.  A
record with `published = 1` and no name (`typeNameID` absent) is not placed
in `publishedTypes`: the code additionally requires a non-empty name. -/
theorem c7_counterexample :
    (TypeData.mk none 2 (some 1)).published = some 1 ∧
    lookupA (runTypeNameExtraction [(5, TypeData.mk none 2 (some 1))]).publishedTypes 5
      = none := by
  refine ⟨rfl, by decide⟩

/-- C7 amended: for every record of the input table (unique JS object
keys), the record's id appears in the published-only subset if and only if
its `published` field equals `1` *and* its name is present and non-empty;
and every record is placed into the group keyed by its `groupID` regardless
of whether its name is present or empty. -/
theorem c7_amended (types : List (Nat × TypeData))
    (hnd : (types.map Prod.fst).Nodup) (id : Nat) (td : TypeData)
    (hmem : (id, td) ∈ types) :
    ((∃ s, lookupA (runTypeNameExtraction types).publishedTypes id = some s) ↔
      (td.published = some 1 ∧ ∃ s, td.typeNameID = some s ∧ s ≠ "")) ∧
    (∃ l, lookupA (runTypeNameExtraction types).typesByGroup td.groupID = some l ∧
      ∃ ge ∈ l, ge.typeID = id) := by
  obtain ⟨pre, post, rfl⟩ := List.append_of_mem hmem
  obtain ⟨hpre, hpost⟩ := nodup_split_keys pre post id td hnd
  unfold runTypeNameExtraction
  rw [List.foldl_append, List.foldl_cons]
  have hpre0 : lookupA (pre.foldl typeStep ⟨[], [], [], []⟩).publishedTypes id
      = none := by
    rw [run_pub_other pre _ id hpre]; rfl
  constructor
  · rw [run_pub_other post _ id hpost]
    rw [typeStep_pub]
    constructor
    · rintro ⟨s, hs⟩
      by_cases hp : td.published = some 1
      · refine ⟨hp, ?_⟩
        simp only [hp, if_true] at hs
        cases hn : td.typeNameID with
        | none =>
          rw [hn] at hs
          simp only [] at hs
          rw [hpre0] at hs
          simp at hs
        | some s2 =>
          rw [hn] at hs
          simp only [] at hs
          by_cases h2 : s2 = ""
          · rw [if_pos h2] at hs
            rw [hpre0] at hs
            simp at hs
          · exact ⟨s2, rfl, h2⟩
      · simp only [hp, if_false] at hs
        rw [hpre0] at hs
        simp at hs
    · rintro ⟨hp, s, hn, hs⟩
      simp only [hp, if_true, hn, hs, if_false]
      exact ⟨s, lookupA_setA_self _ _ _⟩
  · have hstep := typeStep_group_self (pre.foldl typeStep ⟨[], [], [], []⟩) (id, td)
    obtain ⟨l2, h2, hm2⟩ := hstep
    obtain ⟨l3, h3, hm3⟩ := run_group_pres post _ td.groupID _ l2 h2 hm2
    exact ⟨l3, h3, ⟨_, hm3, rfl⟩⟩

/-- C7 witness: the amended theorem on a two-record table — type `9` named
`"Ore"` published `1` (in the subset; grouped), type `5` unnamed published
`1` (not in the subset; still grouped under its `groupID`). -/
theorem c7_witness :
    ((∃ s, lookupA (runTypeNameExtraction
        [(9, TypeData.mk (some "Ore") 4 (some 1)),
         (5, TypeData.mk none 2 (some 1))]).publishedTypes 5 = some s) ↔
      ((TypeData.mk none 2 (some 1)).published = some 1 ∧
        ∃ s, (TypeData.mk none 2 (some 1)).typeNameID = some s ∧ s ≠ "")) ∧
    (∃ l, lookupA (runTypeNameExtraction
        [(9, TypeData.mk (some "Ore") 4 (some 1)),
         (5, TypeData.mk none 2 (some 1))]).typesByGroup
          (TypeData.mk none 2 (some 1)).groupID = some l ∧
      ∃ ge ∈ l, ge.typeID = 5) :=
  c7_amended
    [(9, TypeData.mk (some "Ore") 4 (some 1)), (5, TypeData.mk none 2 (some 1))]
    (by decide) 5 (TypeData.mk none 2 (some 1)) (by decide)

/-! ## Stellar cartography label join
(src/lib/processors/file-indexing.js in this repository's copy:
`extractStellarLabels` and `buildStellarData` of the stellar cartography
processor)

`starmapcache.json` is a nested map of regions / constellations / solar
systems; `localization_fsd_main.json` carries `labels` entries with a
`FullPath` category and a `label` pattern `solar_system_<id>` /
`constellation_<id>` / `region_<id>`; `localization_fsd_en-us.json` maps a
message id to an array whose first element is the display name.  The
payload of each starmap record beyond the fields read by the join (the id
lists) is kept abstract as type parameters — `buildStellarData` copies it
through and only the emitted `name` is claim-relevant. -/

structure RegionData (ρ : Type) where
  solarSystemIDs : Option (List Nat)
  constellationIDs : Option (List Nat)
  payload : ρ

structure ConstellationData (κ : Type) where
  solarSystemIDs : Option (List Nat)
  payload : κ

structure StarMapCache (σ κ ρ : Type) where
  regions : Option (List (Nat × RegionData ρ))
  constellations : Option (List (Nat × ConstellationData κ))
  solarSystems : Option (List (Nat × σ))

/-- One entry of `mainLocalization.labels`. -/
structure LabelEntry where
  FullPath : Option String
  label : Option String
deriving DecidableEq

/-- `mainLocalization` document: the `labels` object. -/
structure MainLoc where
  labels : Option (List (Nat × LabelEntry))
deriving DecidableEq

/-- One value of the English localization object: an array of nullable
strings, or anything else (non-array, `null`, …, which the extraction
skips). -/
inductive EnVal where
  | arr (xs : List (Option String))
  | other
deriving DecidableEq

/-- All solar-system ids referenced by the starmapcache: ids listed in
`region.solarSystemIDs`, in `constellation.solarSystemIDs`, and the keys of
`solarSystems` itself. -/
def collectSystemIds {σ κ ρ : Type} (smc : StarMapCache σ κ ρ) : List Nat :=
  (match smc.regions with
   | some rs => rs.foldr (fun p acc => (p.2.solarSystemIDs.getD []) ++ acc) []
   | none => []) ++
  (match smc.constellations with
   | some cs => cs.foldr (fun p acc => (p.2.solarSystemIDs.getD []) ++ acc) []
   | none => []) ++
  (match smc.solarSystems with
   | some l => l.map Prod.fst
   | none => [])

/-- All constellation ids: keys of `constellations` plus every
`region.constellationIDs` entry. -/
def collectConstellationIds {σ κ ρ : Type} (smc : StarMapCache σ κ ρ) : List Nat :=
  (match smc.regions with
   | some rs => rs.foldr (fun p acc => (p.2.constellationIDs.getD []) ++ acc) []
   | none => []) ++
  (match smc.constellations with
   | some cs => cs.map Prod.fst
   | none => [])

/-- All region ids: the keys of `regions`. -/
def collectRegionIds {σ κ ρ : Type} (smc : StarMapCache σ κ ρ) : List Nat :=
  match smc.regions with
  | some rs => rs.map Prod.fst
  | none => []

/-- Leading decimal-digit run of a string. -/
def digitRun (s : List Char) : List Char := s.takeWhile (fun c => c.isDigit)

/-- Numeric value of a digit run (the `parseInt` of the regex capture). -/
def digitsToNat (ds : List Char) : Nat :=
  ds.foldl (fun a c => a * 10 + (c.toNat - 48)) 0

/-- Bool test for list-prefix used by the label scanner. -/
def listStarts : List Char → List Char → Bool
  | [], _ => true
  | _ :: _, [] => false
  | p :: ps, c :: cs => if p = c then listStarts ps cs else false

/-- First match of the regex `<pat>(\d+)` in a label: scan left to right
for the literal followed by at least one digit, and return the value of the
maximal digit run (the capture of `(\d+)`). -/
def findLabelId (pat : List Char) : List Char → Option Nat
  | [] => none
  | c :: rest =>
    if listStarts pat (c :: rest) then
      match digitRun ((c :: rest).drop pat.length) with
      | [] => findLabelId pat rest
      | d :: ds => some (digitsToNat (d :: ds))
    else findLabelId pat rest

/-- Truthiness check `entry.label &&` before the regex match. -/
def truthyLabel : Option String → Option (List Char)
  | some l => if l = "" then none else some l.data
  | none => none

/-- Inner body of one category branch: `entry.label &&`, the regex match
`<pat>(\d+)`, `parseInt` of the capture, and the `has` test against the
collected id set — yielding the id to record, when all four pass. -/
def msgTry (ids : List Nat) (pat : List Char) (lbl : Option String) : Option Nat :=
  match truthyLabel lbl with
  | some l =>
    match findLabelId pat l with
    | some sid => if sid ∈ ids then some sid else none
    | none => none
  | none => none

/-- The three id → message-id maps built in one pass over
`mainLocalization.labels`; each entry lands in at most one map, gated on
its `FullPath` category and on the id being a collected starmapcache id. -/
def msgStep (sysIds conIds regIds : List Nat)
    (maps : List (Nat × Nat) × List (Nat × Nat) × List (Nat × Nat))
    (p : Nat × LabelEntry) :
    List (Nat × Nat) × List (Nat × Nat) × List (Nat × Nat) :=
  match p.2.FullPath with
  | none => maps
  | some fp =>
    if fp = "Map/SolarSystems" then
      match msgTry sysIds ("solar_system_".data) p.2.label with
      | some sid => (setA maps.1 sid p.1, maps.2.1, maps.2.2)
      | none => maps
    else if fp = "Map/Constellations" then
      match msgTry conIds ("constellation_".data) p.2.label with
      | some cid => (maps.1, setA maps.2.1 cid p.1, maps.2.2)
      | none => maps
    else if fp = "Map/Regions" then
      match msgTry regIds ("region_".data) p.2.label with
      | some rid => (maps.1, maps.2.1, setA maps.2.2 rid p.1)
      | none => maps
    else maps

/-- `systemIdToMessageId` / `constellationIdToMessageId` /
`regionIdToMessageId`, built from empty maps (guarded on
`mainLocalization && mainLocalization.labels`). -/
def msgMapsOf {σ κ ρ : Type} (smc : StarMapCache σ κ ρ) (mainLoc : Option MainLoc) :
    List (Nat × Nat) × List (Nat × Nat) × List (Nat × Nat) :=
  match mainLoc with
  | some ml =>
    match ml.labels with
    | some ls =>
      ls.foldl
        (msgStep (collectSystemIds smc) (collectConstellationIds smc)
          (collectRegionIds smc))
        ([], [], [])
    | none => ([], [], [])
  | none => ([], [], [])

/-- Resolution of one message id against the English localization object:
the value must be present, an array, non-empty, and its first element a
non-null non-empty string. -/
def resolveName (enUs : List (Nat × EnVal)) (mid : Nat) : Option String :=
  match lookupA enUs mid with
  | some (.arr (some s :: _)) => if s = "" then none else some s
  | some (.arr (none :: _)) => none
  | some (.arr []) => none
  | some .other => none
  | none => none

/-- One `forEach` body: resolve the message id and record the name when
resolution succeeded. -/
def labelPut (enUs : List (Nat × EnVal)) (acc : List (Nat × String))
    (p : Nat × Nat) : List (Nat × String) :=
  match resolveName enUs p.2 with
  | some s => setA acc p.1 s
  | none => acc

/-- The `forEach` over an id → message-id map filling a label map. -/
def labelsOfMap (msgMap : List (Nat × Nat)) (enUs : List (Nat × EnVal)) :
    List (Nat × String) :=
  msgMap.foldl (labelPut enUs) []

/-- `extractStellarLabels`: the three label maps (empty when the English
localization document is missing or not an object). -/
def extractStellarLabels {σ κ ρ : Type} (smc : StarMapCache σ κ ρ)
    (mainLoc : Option MainLoc) (enUs : Option (List (Nat × EnVal))) :
    List (Nat × String) × List (Nat × String) × List (Nat × String) :=
  match enUs with
  | some ld =>
    (labelsOfMap (msgMapsOf smc mainLoc).1 ld,
      labelsOfMap (msgMapsOf smc mainLoc).2.1 ld,
      labelsOfMap (msgMapsOf smc mainLoc).2.2 ld)
  | none => ([], [], [])

/-- `systemLabels.get(systemId) || 'System_<id>'` (a stored empty string
would also fall back, mirroring `||`). -/
def jsOrName (o : Option String) (fb : String) : String :=
  match o with
  | some s => if s = "" then fb else s
  | none => fb

/-- The `systems` output of `buildStellarData`, restricted to the claim's
fields: each `solarSystems` entry keyed by its id, carrying the resolved
`name` and the input record (whose remaining fields the code copies through
with defaults). -/
def buildSystems {σ κ ρ : Type} (smc : StarMapCache σ κ ρ)
    (sysLabels : List (Nat × String)) : List (Nat × (String × σ)) :=
  match smc.solarSystems with
  | some l =>
    l.map fun p =>
      (p.1, (jsOrName (lookupA sysLabels p.1) ("System_" ++ toString p.1), p.2))
  | none => []

/-- Each label entry changes at most one of the three message-id maps, and
only by a `setA` at a key drawn from the corresponding collected id set. -/
theorem msgTry_mem (ids : List Nat) (pat : List Char) (lbl : Option String)
    (sid : Nat) (h : msgTry ids pat lbl = some sid) : sid ∈ ids := by
  unfold msgTry at h
  cases htl : truthyLabel lbl with
  | none => rw [htl] at h; simp at h
  | some tl =>
    rw [htl] at h
    simp only [] at h
    cases hf : findLabelId pat tl with
    | none => rw [hf] at h; simp at h
    | some sid2 =>
      rw [hf] at h
      simp only [] at h
      by_cases hm : sid2 ∈ ids
      · rw [if_pos hm] at h
        simp only [Option.some.injEq] at h
        subst h
        exact hm
      · rw [if_neg hm] at h; simp at h

theorem msgStep_cases (sysIds conIds regIds : List Nat)
    (maps : List (Nat × Nat) × List (Nat × Nat) × List (Nat × Nat))
    (p : Nat × LabelEntry) :
    ((msgStep sysIds conIds regIds maps p).1 = maps.1 ∨
      ∃ k v, k ∈ sysIds ∧ (msgStep sysIds conIds regIds maps p).1 = setA maps.1 k v) ∧
    ((msgStep sysIds conIds regIds maps p).2.1 = maps.2.1 ∨
      ∃ k v, k ∈ conIds ∧
        (msgStep sysIds conIds regIds maps p).2.1 = setA maps.2.1 k v) ∧
    ((msgStep sysIds conIds regIds maps p).2.2 = maps.2.2 ∨
      ∃ k v, k ∈ regIds ∧
        (msgStep sysIds conIds regIds maps p).2.2 = setA maps.2.2 k v) := by
  unfold msgStep
  cases p.2.FullPath with
  | none => exact ⟨Or.inl rfl, Or.inl rfl, Or.inl rfl⟩
  | some fp =>
    simp only []
    by_cases h1 : fp = "Map/SolarSystems"
    · rw [if_pos h1]
      cases ht : msgTry sysIds ("solar_system_".data) p.2.label with
      | none => exact ⟨Or.inl rfl, Or.inl rfl, Or.inl rfl⟩
      | some sid =>
        exact ⟨Or.inr ⟨sid, p.1, msgTry_mem _ _ _ _ ht, rfl⟩, Or.inl rfl, Or.inl rfl⟩
    · rw [if_neg h1]
      by_cases h2 : fp = "Map/Constellations"
      · rw [if_pos h2]
        cases ht : msgTry conIds ("constellation_".data) p.2.label with
        | none => exact ⟨Or.inl rfl, Or.inl rfl, Or.inl rfl⟩
        | some cid =>
          exact ⟨Or.inl rfl, Or.inr ⟨cid, p.1, msgTry_mem _ _ _ _ ht, rfl⟩, Or.inl rfl⟩
      · rw [if_neg h2]
        by_cases h3 : fp = "Map/Regions"
        · rw [if_pos h3]
          cases ht : msgTry regIds ("region_".data) p.2.label with
          | none => exact ⟨Or.inl rfl, Or.inl rfl, Or.inl rfl⟩
          | some rid =>
            exact ⟨Or.inl rfl, Or.inl rfl,
              Or.inr ⟨rid, p.1, msgTry_mem _ _ _ _ ht, rfl⟩⟩
        · rw [if_neg h3]
          exact ⟨Or.inl rfl, Or.inl rfl, Or.inl rfl⟩

/-- Keys of the folded message-id maps stay inside the collected id sets
(plus whatever the accumulator already held), and their key lists stay
duplicate-free. -/
theorem msgfold_inv (sysIds conIds regIds : List Nat) (ls : List (Nat × LabelEntry)) :
    ∀ maps : List (Nat × Nat) × List (Nat × Nat) × List (Nat × Nat),
      (∀ id, id ∈ (ls.foldl (msgStep sysIds conIds regIds) maps).1.map Prod.fst →
        id ∈ sysIds ∨ id ∈ maps.1.map Prod.fst) ∧
      (∀ id, id ∈ (ls.foldl (msgStep sysIds conIds regIds) maps).2.1.map Prod.fst →
        id ∈ conIds ∨ id ∈ maps.2.1.map Prod.fst) ∧
      (∀ id, id ∈ (ls.foldl (msgStep sysIds conIds regIds) maps).2.2.map Prod.fst →
        id ∈ regIds ∨ id ∈ maps.2.2.map Prod.fst) ∧
      ((maps.1.map Prod.fst).Nodup →
        ((ls.foldl (msgStep sysIds conIds regIds) maps).1.map Prod.fst).Nodup) ∧
      ((maps.2.1.map Prod.fst).Nodup →
        ((ls.foldl (msgStep sysIds conIds regIds) maps).2.1.map Prod.fst).Nodup) ∧
      ((maps.2.2.map Prod.fst).Nodup →
        ((ls.foldl (msgStep sysIds conIds regIds) maps).2.2.map Prod.fst).Nodup) := by
  induction ls with
  | nil =>
    intro maps
    exact ⟨fun id h => Or.inr h, fun id h => Or.inr h, fun id h => Or.inr h,
      fun h => h, fun h => h, fun h => h⟩
  | cons p rest ih =>
    intro maps
    obtain ⟨c1, c2, c3⟩ := msgStep_cases sysIds conIds regIds maps p
    have step1 : ∀ id,
        id ∈ (msgStep sysIds conIds regIds maps p).1.map Prod.fst →
        id ∈ sysIds ∨ id ∈ maps.1.map Prod.fst := by
      intro id hm
      rcases c1 with hc | ⟨k, v, hk, hc⟩
      · right; rw [← hc]; exact hm
      · rw [hc] at hm
        rcases List.mem_map.mp hm with ⟨q, hq, he⟩
        rcases mem_setA_fst maps.1 k v q hq with h | h
        · left; rw [← he, h]; exact hk
        · right; rw [← he]; exact h
    have step2 : ∀ id,
        id ∈ (msgStep sysIds conIds regIds maps p).2.1.map Prod.fst →
        id ∈ conIds ∨ id ∈ maps.2.1.map Prod.fst := by
      intro id hm
      rcases c2 with hc | ⟨k, v, hk, hc⟩
      · right; rw [← hc]; exact hm
      · rw [hc] at hm
        rcases List.mem_map.mp hm with ⟨q, hq, he⟩
        rcases mem_setA_fst maps.2.1 k v q hq with h | h
        · left; rw [← he, h]; exact hk
        · right; rw [← he]; exact h
    have step3 : ∀ id,
        id ∈ (msgStep sysIds conIds regIds maps p).2.2.map Prod.fst →
        id ∈ regIds ∨ id ∈ maps.2.2.map Prod.fst := by
      intro id hm
      rcases c3 with hc | ⟨k, v, hk, hc⟩
      · right; rw [← hc]; exact hm
      · rw [hc] at hm
        rcases List.mem_map.mp hm with ⟨q, hq, he⟩
        rcases mem_setA_fst maps.2.2 k v q hq with h | h
        · left; rw [← he, h]; exact hk
        · right; rw [← he]; exact h
    have nd1 : (maps.1.map Prod.fst).Nodup →
        ((msgStep sysIds conIds regIds maps p).1.map Prod.fst).Nodup := by
      intro hnd
      rcases c1 with hc | ⟨k, v, _, hc⟩
      · rw [hc]; exact hnd
      · rw [hc]; exact setA_keys_nodup _ _ _ hnd
    have nd2 : (maps.2.1.map Prod.fst).Nodup →
        ((msgStep sysIds conIds regIds maps p).2.1.map Prod.fst).Nodup := by
      intro hnd
      rcases c2 with hc | ⟨k, v, _, hc⟩
      · rw [hc]; exact hnd
      · rw [hc]; exact setA_keys_nodup _ _ _ hnd
    have nd3 : (maps.2.2.map Prod.fst).Nodup →
        ((msgStep sysIds conIds regIds maps p).2.2.map Prod.fst).Nodup := by
      intro hnd
      rcases c3 with hc | ⟨k, v, _, hc⟩
      · rw [hc]; exact hnd
      · rw [hc]; exact setA_keys_nodup _ _ _ hnd
    obtain ⟨i1, i2, i3, i4, i5, i6⟩ := ih (msgStep sysIds conIds regIds maps p)
    refine ⟨?_, ?_, ?_, ?_, ?_, ?_⟩
    · intro id hm
      simp only [List.foldl_cons] at hm
      rcases i1 id hm with h | h
      · left; exact h
      · exact step1 id h
    · intro id hm
      simp only [List.foldl_cons] at hm
      rcases i2 id hm with h | h
      · left; exact h
      · exact step2 id h
    · intro id hm
      simp only [List.foldl_cons] at hm
      rcases i3 id hm with h | h
      · left; exact h
      · exact step3 id h
    · intro hnd
      simp only [List.foldl_cons]
      exact i4 (nd1 hnd)
    · intro hnd
      simp only [List.foldl_cons]
      exact i5 (nd2 hnd)
    · intro hnd
      simp only [List.foldl_cons]
      exact i6 (nd3 hnd)

theorem lookupA_none_forall {α β : Type} [DecidableEq α]
    (l : List (α × β)) (k : α) (h : lookupA l k = none) : ∀ p ∈ l, p.1 ≠ k := by
  induction l with
  | nil => intro p hp; simp at hp
  | cons q rest ih =>
    intro p hp
    simp only [lookupA] at h
    by_cases hq : q.1 = k
    · simp [hq] at h
    · simp only [hq, if_false] at h
      rcases List.mem_cons.mp hp with hp | hp
      · subst hp; exact hq
      · exact ih h p hp

theorem labelsFold_other (enUs : List (Nat × EnVal)) (msgMap : List (Nat × Nat))
    (acc : List (Nat × String)) (id : Nat) (h : ∀ p ∈ msgMap, p.1 ≠ id) :
    lookupA (msgMap.foldl (labelPut enUs) acc) id = lookupA acc id := by
  induction msgMap generalizing acc with
  | nil => rfl
  | cons p rest ih =>
    simp only [List.foldl_cons]
    rw [ih _ fun q hq => h q (List.mem_cons_of_mem _ hq)]
    unfold labelPut
    cases resolveName enUs p.2 with
    | none => rfl
    | some s =>
      exact lookupA_setA_ne acc p.1 id s
        (fun he => h p (List.mem_cons_self _ _) he.symm)

theorem labelsFold_found (enUs : List (Nat × EnVal)) :
    ∀ (msgMap : List (Nat × Nat)) (acc : List (Nat × String)) (id mid : Nat),
      ((msgMap.map Prod.fst).Nodup) → lookupA msgMap id = some mid →
      lookupA acc id = none →
      lookupA (msgMap.foldl (labelPut enUs) acc) id = resolveName enUs mid := by
  intro msgMap
  induction msgMap with
  | nil =>
    intro acc id mid _ h _
    simp [lookupA] at h
  | cons p rest ih =>
    intro acc id mid hnd hl hacc
    simp only [List.map_cons, List.nodup_cons] at hnd
    simp only [lookupA] at hl
    by_cases hp : p.1 = id
    · rw [if_pos hp] at hl
      simp only [Option.some.injEq] at hl
      subst hl
      have hrest : ∀ q ∈ rest, q.1 ≠ id := by
        intro q hq he
        exact hnd.1 (List.mem_map.mpr ⟨q, hq, by rw [he, hp]⟩)
      simp only [List.foldl_cons]
      rw [labelsFold_other enUs rest _ id hrest]
      unfold labelPut
      cases hr : resolveName enUs p.2 with
      | some s =>
        rw [hp]
        exact lookupA_setA_self _ _ _
      | none => exact hacc
    · rw [if_neg hp] at hl
      have hacc2 : lookupA (labelPut enUs acc p) id = none := by
        unfold labelPut
        cases resolveName enUs p.2 with
        | some s =>
          rw [lookupA_setA_ne acc p.1 id s (fun he => hp he.symm)]
          exact hacc
        | none => exact hacc
      simp only [List.foldl_cons]
      exact ih _ id mid hnd.2 hl hacc2

theorem lookupA_labelsOfMap (msgMap : List (Nat × Nat)) (enUs : List (Nat × EnVal))
    (id : Nat) (hnd : (msgMap.map Prod.fst).Nodup) :
    lookupA (labelsOfMap msgMap enUs) id
      = Option.bind (lookupA msgMap id) (resolveName enUs) := by
  unfold labelsOfMap
  cases hl : lookupA msgMap id with
  | some mid => exact labelsFold_found enUs msgMap [] id mid hnd hl rfl
  | none =>
    rw [labelsFold_other enUs msgMap [] id (lookupA_none_forall msgMap id hl)]
    rfl

theorem labelsFold_keys (enUs : List (Nat × EnVal)) :
    ∀ (msgMap : List (Nat × Nat)) (acc : List (Nat × String)) (id : Nat),
      id ∈ (msgMap.foldl (labelPut enUs) acc).map Prod.fst →
      id ∈ msgMap.map Prod.fst ∨ id ∈ acc.map Prod.fst := by
  intro msgMap
  induction msgMap with
  | nil =>
    intro acc id h
    right; exact h
  | cons p rest ih =>
    intro acc id h
    simp only [List.foldl_cons] at h
    rcases ih _ id h with h2 | h2
    · left
      simp only [List.map_cons, List.mem_cons]
      right; exact h2
    · unfold labelPut at h2
      cases hr : resolveName enUs p.2 with
      | none =>
        rw [hr] at h2
        right; exact h2
      | some s =>
        rw [hr] at h2
        rcases List.mem_map.mp h2 with ⟨q, hq, he⟩
        rcases mem_setA_fst acc p.1 s q hq with h3 | h3
        · left
          simp only [List.map_cons, List.mem_cons]
          left; rw [← he]; exact h3
        · right; rw [← he]; exact h3

theorem lookupA_buildSystems {σ κ ρ : Type} (smc : StarMapCache σ κ ρ)
    (labels : List (Nat × String)) (sys : List (Nat × σ))
    (hs : smc.solarSystems = some sys) (id : Nat) :
    lookupA (buildSystems smc labels) id
      = (lookupA sys id).map
          (fun d => (jsOrName (lookupA labels id) ("System_" ++ toString id), d)) := by
  unfold buildSystems
  rw [hs]
  clear hs
  simp only []
  induction sys with
  | nil => rfl
  | cons p rest ih =>
    by_cases hp : p.1 = id
    · simp [lookupA, hp]
    · simp [lookupA, hp, ih]

theorem msgMaps_sys_nodup {σ κ ρ : Type} (smc : StarMapCache σ κ ρ)
    (mainLoc : Option MainLoc) :
    (((msgMapsOf smc mainLoc).1).map Prod.fst).Nodup := by
  unfold msgMapsOf
  cases mainLoc with
  | none => simp
  | some ml =>
    simp only []
    cases hml : ml.labels with
    | none => simp
    | some ls =>
      exact (msgfold_inv (collectSystemIds smc) (collectConstellationIds smc)
        (collectRegionIds smc) ls ([], [], [])).2.2.2.1 (by simp)

/-- C8: for every system id present in the starmapcache's `solarSystems`
map (unique JS object keys): when the id has no matched message id in the
main-localization label chain, or its message id has no usable English
localization entry, the emitted system record's name is `"System_<id>"`;
when the chain fully resolves — matched message id whose English entry is a
non-empty array with a non-null, non-empty first element — the name is
exactly that first element. -/
theorem c8_system_names {σ κ ρ : Type} (smc : StarMapCache σ κ ρ)
    (mainLoc : Option MainLoc) (enUsD : List (Nat × EnVal))
    (sys : List (Nat × σ)) (hs : smc.solarSystems = some sys)
    (hnd : (sys.map Prod.fst).Nodup) (id : Nat) (d : σ) (hmem : (id, d) ∈ sys) :
    (lookupA (msgMapsOf smc mainLoc).1 id = none →
      lookupA (buildSystems smc (extractStellarLabels smc mainLoc (some enUsD)).1) id
        = some ("System_" ++ toString id, d)) ∧
    (∀ mid, lookupA (msgMapsOf smc mainLoc).1 id = some mid →
      resolveName enUsD mid = none →
      lookupA (buildSystems smc (extractStellarLabels smc mainLoc (some enUsD)).1) id
        = some ("System_" ++ toString id, d)) ∧
    (∀ mid s rest2, lookupA (msgMapsOf smc mainLoc).1 id = some mid →
      lookupA enUsD mid = some (.arr (some s :: rest2)) → s ≠ "" →
      lookupA (buildSystems smc (extractStellarLabels smc mainLoc (some enUsD)).1) id
        = some (s, d)) := by
  have hlab : lookupA (extractStellarLabels smc mainLoc (some enUsD)).1 id
      = Option.bind (lookupA (msgMapsOf smc mainLoc).1 id) (resolveName enUsD) := by
    unfold extractStellarLabels
    simp only []
    exact lookupA_labelsOfMap _ _ _ (msgMaps_sys_nodup smc mainLoc)
  have hsysl : lookupA sys id = some d := lookupA_eq_of_mem_nodup sys id d hmem hnd
  have hb := lookupA_buildSystems smc
    (extractStellarLabels smc mainLoc (some enUsD)).1 sys hs id
  rw [hsysl] at hb
  refine ⟨?_, ?_, ?_⟩
  · intro hnone
    rw [hb, hlab, hnone]
    rfl
  · intro mid hmid hres
    rw [hb, hlab, hmid]
    have hbind : Option.bind (some mid) (resolveName enUsD) = none := by
      rw [show Option.bind (some mid) (resolveName enUsD)
        = resolveName enUsD mid from rfl, hres]
    rw [hbind]
    rfl
  · intro mid s rest2 hmid hen hse
    have hres : resolveName enUsD mid = some s := by
      unfold resolveName
      rw [hen]
      simp only []
      rw [if_neg hse]
    rw [hb, hlab, hmid]
    have hbind : Option.bind (some mid) (resolveName enUsD) = some s := by
      rw [show Option.bind (some mid) (resolveName enUsD)
        = resolveName enUsD mid from rfl, hres]
    rw [hbind]
    have hname : jsOrName (some s) ("System_" ++ toString id) = s := by
      unfold jsOrName
      simp only []
      rw [if_neg hse]
    rw [hname]
    rfl

/-- C8 witness: the theorem's two claim cases at concrete inputs — system
`7` with an empty label chain gets `"System_7"`, and system `7` with a full
chain (`solar_system_7` at message id `100`, English entry `["Alpha"]`)
gets `"Alpha"`. -/
theorem c8_witness :
    lookupA (buildSystems (⟨none, none, some [(7, ())]⟩ : StarMapCache Unit Unit Unit)
        (extractStellarLabels (⟨none, none, some [(7, ())]⟩ : StarMapCache Unit Unit Unit)
          none (some [])).1) 7
      = some ("System_" ++ toString 7, ()) ∧
    lookupA (buildSystems (⟨none, none, some [(7, ())]⟩ : StarMapCache Unit Unit Unit)
        (extractStellarLabels (⟨none, none, some [(7, ())]⟩ : StarMapCache Unit Unit Unit)
          (some ⟨some [(100, ⟨some "Map/SolarSystems", some "solar_system_7"⟩)]⟩)
          (some [(100, EnVal.arr [some "Alpha"])])).1) 7
      = some ("Alpha", ()) :=
  ⟨(c8_system_names (⟨none, none, some [(7, ())]⟩ : StarMapCache Unit Unit Unit)
      none [] [(7, ())] rfl (by decide) 7 () (by decide)).1 (by decide),
    (c8_system_names (⟨none, none, some [(7, ())]⟩ : StarMapCache Unit Unit Unit)
      (some ⟨some [(100, ⟨some "Map/SolarSystems", some "solar_system_7"⟩)]⟩)
      [(100, EnVal.arr [some "Alpha"])] [(7, ())] rfl (by decide) 7 ()
      (by decide)).2.2 100 "Alpha" [] (by decide) (by decide) (by decide)⟩

/-- C10: every id appearing as a key in an emitted stellar label map
(system, constellation, region) is an id collected from the starmapcache
input — the label outputs' key sets are subsets of the starmapcache's id
sets, because a localization label is only recorded after the
`allSystemIds/allConstellationIds/allRegionIds.has` guard. -/
theorem c10_label_keys {σ κ ρ : Type} (smc : StarMapCache σ κ ρ)
    (mainLoc : Option MainLoc) (enUs : Option (List (Nat × EnVal))) (id : Nat) :
    (id ∈ (extractStellarLabels smc mainLoc enUs).1.map Prod.fst →
      id ∈ collectSystemIds smc) ∧
    (id ∈ (extractStellarLabels smc mainLoc enUs).2.1.map Prod.fst →
      id ∈ collectConstellationIds smc) ∧
    (id ∈ (extractStellarLabels smc mainLoc enUs).2.2.map Prod.fst →
      id ∈ collectRegionIds smc) := by
  cases enUs with
  | none =>
    refine ⟨?_, ?_, ?_⟩ <;> · intro h; simp [extractStellarLabels] at h
  | some ld =>
    have hmk : ∀ (i : Nat),
        (i ∈ (msgMapsOf smc mainLoc).1.map Prod.fst → i ∈ collectSystemIds smc) ∧
        (i ∈ (msgMapsOf smc mainLoc).2.1.map Prod.fst →
          i ∈ collectConstellationIds smc) ∧
        (i ∈ (msgMapsOf smc mainLoc).2.2.map Prod.fst → i ∈ collectRegionIds smc) := by
      intro i
      unfold msgMapsOf
      cases mainLoc with
      | none =>
        refine ⟨?_, ?_, ?_⟩ <;> · intro h; simp at h
      | some ml =>
        simp only []
        cases hml : ml.labels with
        | none =>
          refine ⟨?_, ?_, ?_⟩ <;> · intro h; simp at h
        | some ls =>
          obtain ⟨i1, i2, i3, _, _, _⟩ := msgfold_inv (collectSystemIds smc)
            (collectConstellationIds smc) (collectRegionIds smc) ls ([], [], [])
          refine ⟨?_, ?_, ?_⟩
          · intro h
            rcases i1 i h with h2 | h2
            · exact h2
            · simp at h2
          · intro h
            rcases i2 i h with h2 | h2
            · exact h2
            · simp at h2
          · intro h
            rcases i3 i h with h2 | h2
            · exact h2
            · simp at h2
    have hexp : extractStellarLabels smc mainLoc (some ld)
        = (labelsOfMap (msgMapsOf smc mainLoc).1 ld,
            labelsOfMap (msgMapsOf smc mainLoc).2.1 ld,
            labelsOfMap (msgMapsOf smc mainLoc).2.2 ld) := rfl
    rw [hexp]
    refine ⟨?_, ?_, ?_⟩
    · intro h
      rcases labelsFold_keys ld (msgMapsOf smc mainLoc).1 [] id h with h2 | h2
      · exact (hmk id).1 h2
      · simp at h2
    · intro h
      rcases labelsFold_keys ld (msgMapsOf smc mainLoc).2.1 [] id h with h2 | h2
      · exact (hmk id).2.1 h2
      · simp at h2
    · intro h
      rcases labelsFold_keys ld (msgMapsOf smc mainLoc).2.2 [] id h with h2 | h2
      · exact (hmk id).2.2 h2
      · simp at h2

/-- C10 witness: the full chain at a concrete input — the system label map
for starmapcache `{solarSystems: {7: {}}}` with label `solar_system_7` and
English entry `["Alpha"]` emits key `7`, which is indeed a collected
starmapcache id. -/
theorem c10_witness :
    (7 : Nat) ∈ collectSystemIds
      (⟨none, none, some [(7, ())]⟩ : StarMapCache Unit Unit Unit) :=
  (c10_label_keys (⟨none, none, some [(7, ())]⟩ : StarMapCache Unit Unit Unit)
    (some ⟨some [(100, ⟨some "Map/SolarSystems", some "solar_system_7"⟩)]⟩)
    (some [(100, EnVal.arr [some "Alpha"])]) 7).1 (by decide)
